import Mathlib
/-!
Verification development for the layout engine of a draggable/resizable
grid-layout library (a fork of react-grid-layout).

The data model and the interaction handlers (`handleDrag`, `handleResize`,
`handleDragStop`, `handleResizeStop`, `processGridItem`, `onResizeHandler`,
and the responsive wrapper's `onWidthChange` / `onLayoutChange`) are
translated from the component sources.  The geometry utilities
(`collides`, `getAllCollisions`, `compact`, `moveElement`,
`getBreakpointFromWidth`, `findOrGenerateResponsiveLayout`,
`synchronizeLayoutWithChildren`) live in `utils.js` / `responsiveUtils.js`,
which are not part of the provided sources; those definitions are modelled
from the specification text, as indicated in their doc comments.

Machine numbers are modelled as `Int` (grid units are integers; JavaScript
`Infinity` sentinels become `Option Int` with `none` standing for infinity)
and as `Rat` for the pixel arithmetic of the rendering adapter.
-/

/-- A grid item.  Fields are the ones of the layout records: key `i`,
position `x`,`y`, size `w`,`h`, bounds (with `none` standing for the
JavaScript `Infinity` default of `maxW`/`maxH`), the `static` obstacle
flag, the tri-state per-item override flags, and the `persistentW`/
`persistentH` size memory written by `handleResize`. -/
structure LayoutItem where
  i : String
  x : Int
  y : Int
  w : Int
  h : Int
  isStatic : Bool := false
  isDraggable : Option Bool := Option.none
  isResizable : Option Bool := Option.none
  isBounded : Option Bool := Option.none
  minW : Int := 1
  maxW : Option Int := Option.none
  minH : Int := 1
  maxH : Option Int := Option.none
  persistentW : Option Int := Option.none
  persistentH : Option Int := Option.none
deriving DecidableEq, Repr

/-- A layout is an ordered list of items. -/
abbrev Layout := List LayoutItem

/-- Item `l` with its `y` coordinate replaced. -/
def setY (l : LayoutItem) (y' : Int) : LayoutItem := { l with y := y' }

/-- Item `l` with its `x` coordinate replaced. -/
def setX (l : LayoutItem) (x' : Int) : LayoutItem := { l with x := x' }

/-- Modelled from the spec: `collides(a, b)` is true iff the half-open
rectangles `[x, x+w) × [y, y+h)` of `a` and `b` intersect; two items with
identical key are never considered colliding. -/
def collides (a b : LayoutItem) : Bool :=
  !(a.i == b.i) &&
    decide (a.x < b.x + b.w) && decide (b.x < a.x + a.w) &&
    decide (a.y < b.y + b.h) && decide (b.y < a.y + a.h)

/-- Modelled from the spec: all items of `layout` whose rectangle intersects
`l`'s rectangle (items with `l`'s own key excluded via `collides`),
in layout order. -/
def getAllCollisions (layout : Layout) (l : LayoutItem) : Layout :=
  layout.filter (fun q => collides l q)

/-- Modelled from the spec: bottom-most occupied row coordinate of a layout
(`max (y + h)` over all items, `0` for the empty layout). -/
def bottom (layout : Layout) : Int :=
  layout.foldr (fun q m => max (q.y + q.h) m) 0

/-- The compaction axis: `vertical`, `horizontal`, or none (`noCompact`,
the legacy `verticalCompact: false` / `compactType: null` mode). -/
inductive CompactType where
  | vertical
  | horizontal
  | noCompact
deriving DecidableEq, Repr

/-- Strict lexicographic comparison of lists of naturals (used to compare
item keys character by character, as JavaScript string comparison does). -/
def natListLt : List Nat → List Nat → Bool
  | [], [] => false
  | [], _ :: _ => true
  | _ :: _, [] => false
  | a :: as, b :: bs => decide (a < b) || (a == b && natListLt as bs)

/-- Code points of an item key, for ordering purposes. -/
def keyChars (s : String) : List Nat := s.data.map Char.toNat

/-- Strict "visit before" comparison for vertical compaction: ascending
lexicographic order on `(y, x, i)` as the spec prescribes. -/
def itemLtV (a b : LayoutItem) : Bool :=
  decide (a.y < b.y) ||
    (a.y == b.y &&
      (decide (a.x < b.x) || (a.x == b.x && natListLt (keyChars a.i) (keyChars b.i))))

/-- Strict "visit before" comparison for horizontal compaction: ascending
lexicographic order on `(x, y, i)`. -/
def itemLtH (a b : LayoutItem) : Bool :=
  decide (a.x < b.x) ||
    (a.x == b.x &&
      (decide (a.y < b.y) || (a.y == b.y && natListLt (keyChars a.i) (keyChars b.i))))

/-- Total sorting relation on index-tagged items: the strict key comparison
`lt`, with ties broken by the original list position (so that the sort is a
deterministic model of a stable sort). -/
def leIdx (lt : LayoutItem → LayoutItem → Bool) (p q : Nat × LayoutItem) : Bool :=
  lt p.2 q.2 || (!lt q.2 p.2 && decide (p.1 ≤ q.1))

/-- The sorting relation for vertical visiting order, as a proposition. -/
def sortRelV (p q : Nat × LayoutItem) : Prop := leIdx itemLtV p q = true

/-- The sorting relation for horizontal visiting order, as a proposition. -/
def sortRelH (p q : Nat × LayoutItem) : Prop := leIdx itemLtH p q = true

instance : DecidableRel sortRelV := fun p q => inferInstanceAs (Decidable (_ = true))

instance : DecidableRel sortRelH := fun p q => inferInstanceAs (Decidable (_ = true))

/-- Bounded linear search: the first coordinate `c, c+1, ...` (at most `n`
steps) satisfying `p`; returns the last candidate when fuel runs out. -/
def searchMin (p : Int → Bool) : Nat → Int → Int
  | 0, c => c
  | n + 1, c => if p c then c else searchMin p n (c + 1)

/-- True iff `l`, moved to row `y'`, collides with no obstacle in `obs`. -/
def freeAtV (obs : Layout) (l : LayoutItem) (y' : Int) : Bool :=
  obs.all (fun q => !(collides (setY l y') q))

/-- True iff `l`, moved to column `x'`, collides with no obstacle in `obs`. -/
def freeAtH (obs : Layout) (l : LayoutItem) (x' : Int) : Bool :=
  obs.all (fun q => !(collides (setX l x') q))

/-- Right-most occupied column coordinate of a layout. -/
def rightEdge (layout : Layout) : Int :=
  layout.foldr (fun q m => max (q.x + q.w) m) 0

/-- Modelled from the spec: the smallest row `≥ 0` at which `l` collides
with no obstacle ("move the item as far as possible toward the origin along
the compaction axis such that it does not collide with any item already
placed").  The row just below all obstacles is always collision-free, so the
bounded search always finds the minimum. -/
def minFreeV (obs : Layout) (l : LayoutItem) : Int :=
  searchMin (freeAtV obs l) ((bottom obs).toNat + 1) 0

/-- Modelled from the spec: the smallest column `≥ 0` at which `l` collides
with no obstacle. -/
def minFreeH (obs : Layout) (l : LayoutItem) : Int :=
  searchMin (freeAtH obs l) ((rightEdge obs).toNat + 1) 0

/-- Moving one visited non-static item as far toward the origin as possible
along the compaction axis, against the given obstacles. -/
def placeStep (t : CompactType) (obs : Layout) (l : LayoutItem) : LayoutItem :=
  match t with
  | .vertical => setY l (minFreeV obs l)
  | .horizontal => setX l (minFreeH obs l)
  | .noCompact => l

/-- The single greedy compaction pass: items are visited in sorted order;
a static item is copied unchanged, a non-static item is compacted against
all static items plus the previously placed non-static items, then joins
the obstacle set.  Index tags are carried along to restore input order. -/
def runCompact (t : CompactType) (statics : Layout) :
    List (Nat × LayoutItem) → Layout → List (Nat × LayoutItem)
  | [], _ => []
  | (j, l) :: rest, placed =>
    if l.isStatic then (j, l) :: runCompact t statics rest placed
    else
      let l' := placeStep t (statics ++ placed) l
      (j, l') :: runCompact t statics rest (placed ++ [l'])

/-- Modelled from the spec: items are visited in ascending `(y, x, i)` order
for vertical compaction and `(x, y, i)` order for horizontal compaction
(ties beyond that broken stably by original position); for `noCompact` the
original order is kept. -/
def sortLayoutItems (t : CompactType) (indexed : List (Nat × LayoutItem)) :
    List (Nat × LayoutItem) :=
  match t with
  | .vertical => List.insertionSort sortRelV indexed
  | .horizontal => List.insertionSort sortRelH indexed
  | .noCompact => indexed

/-- Modelled from the spec: the horizontal bound correction applied after
compaction — clamp every item so `x + w ≤ cols`, reducing `x` (never `w`),
keeping `x ≥ 0`. -/
def correctItemBound (cols : Int) (l : LayoutItem) : LayoutItem :=
  if l.x + l.w ≤ cols then l else setX l (max 0 (cols - l.w))

/-- Put the placed items back into the input's order using their index tags. -/
def restoreOrder (layout : Layout) (placed : List (Nat × LayoutItem)) : Layout :=
  layout.enum.map (fun p =>
    match placed.find? (fun q => q.1 == p.1) with
    | some q => q.2
    | none => p.2)

/-- Modelled from the spec: `compact(layout, compactType, cols)`.  For
`vertical`/`horizontal`, visit items in the prescribed order and greedily
move each non-static item as far as possible toward the origin along the
axis without colliding with statics or already-placed items; statics are
copied unchanged; output preserves input order.  For `noCompact` no
repositioning occurs.  In all cases the `x + w ≤ cols` bound correction is
applied to every item afterwards. -/
def compact (layout : Layout) (t : CompactType) (cols : Int) : Layout :=
  match t with
  | .noCompact => layout.map (correctItemBound cols)
  | _ =>
    let statics := layout.filter (fun l => l.isStatic)
    let sorted := sortLayoutItems t layout.enum
    let placed := runCompact t statics sorted []
    (restoreOrder layout placed).map (correctItemBound cols)

/-- Lookup of an item by key (`getLayoutItem` of the utilities module):
first item whose key equals `key`. -/
def getLayoutItem (layout : Layout) (key : String) : Option LayoutItem :=
  layout.find? (fun l => l.i == key)

/-- Replace the first item whose key is `key` by `l'` (a pure rendering of
the in-place mutation of the found item that the JavaScript code performs). -/
def replaceFirstByKey (layout : Layout) (key : String) (l' : LayoutItem) : Layout :=
  match layout with
  | [] => []
  | q :: rest => if q.i == key then l' :: rest else q :: replaceFirstByKey rest key l'

/-- Pushing `target` along the compaction axis just past `pusher` — the
minimum displacement that clears the overlap (down for vertical and for no
compaction, right for horizontal). -/
def pushPast (t : CompactType) (pusher target : LayoutItem) : LayoutItem :=
  match t with
  | .horizontal => setX target (pusher.x + pusher.w)
  | _ => setY target (pusher.y + pusher.h)

/-- Modelled from the spec: the displacement cascade of `moveElement` when
`preventCollision` is false.  A worklist of keys is processed; for the item
under a key, each item colliding with it is pushed along the compaction
axis by the minimum amount that clears the overlap, recursively, guarded by
a visited-key set so no item is displaced twice in one cascade.  A static
item is never displaced: the moving item itself is placed at the obstacle's
far edge instead.  The fuel argument bounds the work (the spec's visited
set guarantees termination; the fuel is a conservative rendering of that
bound). -/
def resolveCascade (t : CompactType) : Nat → List String → List String → Layout → Layout
  | 0, _, _, layout => layout
  | _ + 1, [], _, layout => layout
  | fuel + 1, k :: ks, visited, layout =>
    match getLayoutItem layout k with
    | Option.none => resolveCascade t fuel ks visited layout
    | some mover =>
      match layout.filter (fun q => collides mover q && !(visited.contains q.i)) with
      | [] => resolveCascade t fuel ks visited layout
      | c :: _ =>
        if c.isStatic then
          resolveCascade t fuel (k :: ks) (c.i :: visited)
            (replaceFirstByKey layout k (pushPast t c mover))
        else
          resolveCascade t fuel (c.i :: k :: ks) (c.i :: visited)
            (replaceFirstByKey layout c.i (pushPast t mover c))

/-- Modelled from the spec: `moveElement`.  The target is clamped so
`toX ≥ 0`, `toX + w ≤ cols`, `toY ≥ 0`.  A missing key is a no-op returning
the layout unchanged.  With `preventCollision` true, a collision at the
clamped destination rejects the move (original layout returned), otherwise
the item is moved and the rest is untouched (no compaction here).  With
`preventCollision` false the item is moved unconditionally and colliding
items are displaced by the cascade.  `isUserAction` marks the top-level
live-gesture call; the spec describes its effect (permission to swap past
non-static neighbours) only as intent, and both modes push identically
here — no claim in this development depends on the cascade's route. -/
def moveElement (layout : Layout) (key : String) (toX toY : Int)
    (isUserAction preventCollision : Bool) (t : CompactType) (cols : Int) : Layout :=
  match getLayoutItem layout key with
  | Option.none => layout
  | some item =>
    let tx := max 0 (min toX (cols - item.w))
    let ty := max 0 toY
    let moved := { item with x := tx, y := ty }
    let layout' := replaceFirstByKey layout key moved
    if preventCollision then
      if (getAllCollisions layout' moved).isEmpty then layout' else layout
    else
      resolveCascade t ((layout.length + 1) * (layout.length + 1) + 1) [key] [] layout'

/-- Modelled from the spec: `cloneLayoutItem` is a field-by-field copy; in
a pure value model a copy is the value itself. -/
def cloneLayoutItem (l : LayoutItem) : LayoutItem := l

/-- Modelled from the spec: `cloneLayout` copies every item. -/
def cloneLayout (layout : Layout) : Layout := layout.map cloneLayoutItem

/-- The grid component's configuration, restricted to what the modelled
handlers read. -/
structure GridProps where
  cols : Int := 12
  compactType : CompactType := CompactType.vertical
  verticalCompact : Bool := true
  preventCollision : Bool := false
  isDraggable : Bool := true
  isResizable : Bool := true
  isBounded : Bool := false
deriving DecidableEq, Repr

/-- Legacy support for `verticalCompact: false` (`fixCompactType`). -/
def fixCompactType (p : GridProps) : CompactType :=
  if p.verticalCompact = false then CompactType.noCompact else p.compactType

/-- The transient placeholder built during drag (`placeholder: true`) and
resize (`static: true`) moves. -/
structure Placeholder where
  w : Int
  h : Int
  x : Int
  y : Int
  i : String
  placeholderFlag : Bool := false
  staticFlag : Bool := false
deriving DecidableEq, Repr

/-- The component state the handlers read and write: the stored layout, the
active placeholder, and the session snapshots. -/
structure GridState where
  layoutState : Layout
  activeDrag : Option Placeholder := Option.none
  oldDragItem : Option LayoutItem := Option.none
  oldLayout : Option Layout := Option.none
  oldResizeItem : Option LayoutItem := Option.none
deriving DecidableEq, Repr

/-- The notifications a handler fires, in order, with their payloads (the
opaque `e`/`node` pass-through handles are omitted). -/
inductive GridEvent where
  | dragStartEv (layout : Layout) (oldItem newItem : LayoutItem)
  | dragEv (layout : Layout) (oldItem : Option LayoutItem) (newItem : LayoutItem) (ph : Placeholder)
  | dragStopEv (layout : Layout) (oldItem : Option LayoutItem) (newItem : LayoutItem)
  | resizeStartEv (layout : Layout) (oldItem newItem : LayoutItem)
  | resizeEv (layout : Layout) (oldItem : Option LayoutItem) (newItem : LayoutItem) (ph : Placeholder)
  | resizeStopEv (layout : Layout) (oldItem : Option LayoutItem) (newItem : Option LayoutItem)
  | layoutChangeEv (layout : Layout)
deriving DecidableEq, Repr

/-- The `handleLayoutMaybeChanged` notification: `onLayoutChange` fires iff
the new layout differs (structural equality) from the old one, the old one
defaulting to the current stored layout when no snapshot is present. -/
def handleLayoutMaybeChangedEvents (s : GridState) (newLayout : Layout) : List GridEvent :=
  let old := s.oldLayout.getD s.layoutState
  if old = newLayout then [] else [GridEvent.layoutChangeEv newLayout]

/-- The `handleDragStart` handler. -/
def handleDragStart (p : GridProps) (s : GridState) (i : String) (x y : Int) :
    GridState × List GridEvent :=
  match getLayoutItem s.layoutState i with
  | Option.none => (s, [])
  | some l =>
    ({ s with oldDragItem := some (cloneLayoutItem l), oldLayout := some s.layoutState },
      [GridEvent.dragStartEv s.layoutState l l])

/-- The `handleDrag` handler: build the placeholder from the item's current
geometry, move the element (user action, respecting `preventCollision`),
fire `onDrag` with the `moveElement` result, then store the compacted
layout and the placeholder. -/
def handleDrag (p : GridProps) (s : GridState) (i : String) (x y : Int) :
    GridState × List GridEvent :=
  match getLayoutItem s.layoutState i with
  | Option.none => (s, [])
  | some l =>
    let placeholder : Placeholder :=
      { w := l.w, h := l.h, x := l.x, y := l.y, i := i, placeholderFlag := true }
    let modifiedLayout :=
      moveElement s.layoutState i x y true p.preventCollision (fixCompactType p) p.cols
    let newItem := (getLayoutItem modifiedLayout i).getD l
    ({ s with
        layoutState := compact modifiedLayout (fixCompactType p) p.cols,
        activeDrag := some placeholder },
      [GridEvent.dragEv modifiedLayout s.oldDragItem newItem placeholder])

/-- The `handleDragStop` handler: move once more, fire `onDragStop`,
compact, clear the session, and possibly fire `onLayoutChange`. -/
def handleDragStop (p : GridProps) (s : GridState) (i : String) (x y : Int) :
    GridState × List GridEvent :=
  match getLayoutItem s.layoutState i with
  | Option.none => (s, [])
  | some l =>
    let modifiedLayout :=
      moveElement s.layoutState i x y true p.preventCollision (fixCompactType p) p.cols
    let newItem := (getLayoutItem modifiedLayout i).getD l
    let newLayout := compact modifiedLayout (fixCompactType p) p.cols
    ({ s with
        layoutState := newLayout,
        activeDrag := Option.none,
        oldDragItem := Option.none,
        oldLayout := Option.none },
      [GridEvent.dragStopEv modifiedLayout s.oldDragItem newItem] ++
        handleLayoutMaybeChangedEvents s newLayout)

/-- The `handleResizeStart` handler. -/
def handleResizeStart (p : GridProps) (s : GridState) (i : String) (w h : Int) :
    GridState × List GridEvent :=
  match getLayoutItem s.layoutState i with
  | Option.none => (s, [])
  | some l =>
    ({ s with oldResizeItem := some (cloneLayoutItem l), oldLayout := some s.layoutState },
      [GridEvent.resizeStartEv s.layoutState l l])

/-- The running minimum of the values strictly greater than `base`, `none`
when there is no such value — the `leastX`/`leastY` accumulation that the
source's `forEach` over the collisions performs starting from `Infinity`. -/
def leastAbove (base : Int) (vals : List Int) : Option Int :=
  vals.foldl
    (fun acc v => if base < v then
      some (match acc with | Option.none => v | some m => min m v) else acc) Option.none

/-- The size-adjustment step of `handleResize`: with `preventCollision` and
a non-empty collision set for the requested size, shrink `w` to
`leastX - x` (`leastX` being the smallest `x` among colliding items right
of the item, unchanged when there is none) and `h` to `leastY - y`
likewise; otherwise accept the requested size and remember it in
`persistentW`/`persistentH`.  Returns the updated item and the
`hasCollisions` flag. -/
def resizeItemDims (layoutState : Layout) (l : LayoutItem) (w h : Int)
    (preventCollision : Bool) : LayoutItem × Bool :=
  let collisions :=
    (getAllCollisions layoutState { l with w := w, h := h }).filter (fun q => !(q.i == l.i))
  if preventCollision && !collisions.isEmpty then
    let leastX := leastAbove l.x (collisions.map (fun c => c.x))
    let leastY := leastAbove l.y (collisions.map (fun c => c.y))
    ({ l with
        w := match leastX with | some v => v - l.x | Option.none => l.w,
        h := match leastY with | some v => v - l.y | Option.none => l.h }, true)
  else
    ({ l with w := w, h := h, persistentW := some w, persistentH := some h }, false)

/-- The `handleResize` handler: adjust the item's size (collision-aware
when `preventCollision` is set), build the static placeholder from the
result, fire `onResize` with the updated layout, then store the compacted
layout and the placeholder. -/
def handleResize (p : GridProps) (s : GridState) (i : String) (w h : Int) :
    GridState × List GridEvent :=
  match getLayoutItem s.layoutState i with
  | Option.none => (s, [])
  | some l =>
    let l' := (resizeItemDims s.layoutState l w h p.preventCollision).1
    let layout' := replaceFirstByKey s.layoutState i l'
    let placeholder : Placeholder :=
      { w := l'.w, h := l'.h, x := l'.x, y := l'.y, i := i, staticFlag := true }
    ({ s with
        layoutState := compact layout' (fixCompactType p) p.cols,
        activeDrag := some placeholder },
      [GridEvent.resizeEv layout' s.oldResizeItem l' placeholder])

/-- The `handleResizeStop` handler.  Note that, unlike every other handler,
it performs no early return when the key is absent: it always fires
`onResizeStop`, compacts and stores the layout, clears the session, and
possibly fires `onLayoutChange`. -/
def handleResizeStop (p : GridProps) (s : GridState) (i : String) (w h : Int) :
    GridState × List GridEvent :=
  let lOpt := getLayoutItem s.layoutState i
  let newLayout := compact s.layoutState (fixCompactType p) p.cols
  ({ s with
      layoutState := newLayout,
      activeDrag := Option.none,
      oldResizeItem := Option.none,
      oldLayout := Option.none },
    [GridEvent.resizeStopEv s.layoutState s.oldResizeItem lOpt] ++
      handleLayoutMaybeChangedEvents s newLayout)

/-- The effective draggable flag computed by `processGridItem`: the item is
not static, the container allows dragging, and the item's tri-state
override is not explicitly `false`. -/
def processDraggable (isDraggableProp : Bool) (l : LayoutItem) : Bool :=
  !l.isStatic && isDraggableProp && l.isDraggable.getD true

/-- The effective resizable flag computed by `processGridItem`. -/
def processResizable (isResizableProp : Bool) (l : LayoutItem) : Bool :=
  !l.isStatic && isResizableProp && l.isResizable.getD true

/-- The effective bounded flag computed by `processGridItem`: the effective
draggable flag, the container's bounded flag, and the item's tri-state
override not explicitly `false`. -/
def processBounded (isDraggableProp isBoundedProp : Bool) (l : LayoutItem) : Bool :=
  processDraggable isDraggableProp l && isBoundedProp && l.isBounded.getD true

/-- The props of one grid item that its pixel↔grid conversions read.
Pixel quantities are rationals (modelling JavaScript numbers); `maxRows`,
`maxW`, `maxH` may be the `Infinity` sentinel (`Option.none`). -/
structure GridItemProps where
  cols : Int
  containerWidth : Rat
  rowHeight : Rat
  marginX : Rat
  marginY : Rat
  maxRows : Option Int := Option.none
  x : Int
  y : Int
  w : Int
  h : Int
  minW : Int := 1
  minH : Int := 1
  maxW : Option Int := Option.none
  maxH : Option Int := Option.none
deriving DecidableEq, Repr

/-- JavaScript `Math.round`: round half toward positive infinity. -/
def jsRound (q : Rat) : Int := ⌊q + 1 / 2⌋

/-- JavaScript `Math.min` against a possibly-infinite bound. -/
def iminOpt (a : Int) (b : Option Int) : Int :=
  match b with
  | Option.none => a
  | some v => min a v

/-- The `calcColWidth` helper of `GridItem` (division by zero yields `0`
here where JavaScript would yield an infinity; no claim exercises that
configuration). -/
def calcColWidth (p : GridItemProps) : Rat :=
  (p.containerWidth - p.marginX * ((p.cols : Rat) - 1)) / (p.cols : Rat)

/-- The `calcWH` conversion of `GridItem`: pixel size to grid units, rounded,
then capped to `[0, cols - x]` horizontally and `[0, maxRows - y]`
vertically. -/
def calcWH (p : GridItemProps) (heightPx widthPx : Rat) : Int × Int :=
  let colWidth := calcColWidth p
  let w := jsRound ((widthPx + p.marginX) / (colWidth + p.marginX))
  let h := jsRound ((heightPx + p.marginY) / (p.rowHeight + p.marginY))
  (max (min w (p.cols - p.x)) 0,
   max (iminOpt h (p.maxRows.map (fun m => m - p.y))) 0)

/-- The grid-unit size computed by `onResizeHandler` of `GridItem` before it
is delivered to the grid's resize handlers: the `calcWH` result with `w`
capped at `cols - x`, floored at `1`, then min/max capped, and `h` min/max
capped. -/
def onResizeHandlerWH (p : GridItemProps) (heightPx widthPx : Rat) : Int × Int :=
  let wh := calcWH p heightPx widthPx
  let w₁ := min wh.1 (p.cols - p.x)
  let w₂ := max w₁ 1
  let w₃ := max (iminOpt w₂ p.maxW) p.minW
  let h₃ := max (iminOpt wh.2 p.maxH) p.minH
  (w₃, h₃)

/-- Clamp of a value to the interval `[lo, hi]` (lower bound applied after
the upper bound; `hi` may be infinite), as the spec words "clamp to
`[lo, hi]`". -/
def clampRange (lo : Int) (hi : Option Int) (v : Int) : Int :=
  max lo (iminOpt v hi)

/-- The delivered width as the spec describes it: the pixel-derived width
first clamped to `[1, cols - x]` and then to `[minW, maxW]`. -/
def specResizeW (p : GridItemProps) (pixelW : Int) : Int :=
  clampRange p.minW p.maxW (clampRange 1 (some (p.cols - p.x)) pixelW)

/-- The delivered height as the spec describes it: the pixel-derived height
clamped to `[minH, maxH]`. -/
def specResizeH (p : GridItemProps) (pixelH : Int) : Int :=
  clampRange p.minH p.maxH pixelH

/-- A mapping from breakpoint name to layout, in insertion order (the
JavaScript object). -/
abbrev LayoutMap := List (String × Layout)

/-- A mapping from breakpoint name to pixel threshold. -/
abbrev BreakpointMap := List (String × Int)

/-- Key lookup in a layout map. -/
def lookupLM (m : LayoutMap) (k : String) : Option Layout :=
  (m.find? (fun p => p.1 == k)).map (fun p => p.2)

/-- Key membership in a layout map (the JavaScript `in` operator). -/
def containsLM (m : LayoutMap) (k : String) : Bool :=
  m.any (fun p => p.1 == k)

/-- The JavaScript spread-update `{...m, [k]: v}`: replace the entry in
place when the key exists, append it otherwise. -/
def upsertLM (m : LayoutMap) (k : String) (v : Layout) : LayoutMap :=
  if containsLM m k then m.map (fun p => if p.1 == k then (k, v) else p)
  else m ++ [(k, v)]

/-- Breakpoint entries sorted by descending pixel threshold. -/
def sortBreakpoints (bps : BreakpointMap) : BreakpointMap :=
  List.insertionSort (fun a b => b.2 ≤ a.2) bps

/-- Modelled from the spec: `getBreakpointFromWidth` — with breakpoints
sorted descending by threshold, the name of the largest threshold `≤ width`;
when `width` is below every threshold, the breakpoint with the smallest
threshold (the last of the descending list; the empty configuration yields
the empty name). -/
def getBreakpointFromWidth (bps : BreakpointMap) (width : Int) : String :=
  let sorted := sortBreakpoints bps
  match sorted.find? (fun p => decide (p.2 ≤ width)) with
  | some p => p.1
  | Option.none => ((sorted.getLast?).map (fun p => p.1)).getD ""

/-- A renderable child as the synchronizer sees it: a unique key plus
optional geometry/bounds hints. -/
structure ChildDescriptor where
  key : String
  dataGrid : Option LayoutItem := Option.none
deriving DecidableEq, Repr

/-- Modelled from the spec: `synchronizeLayoutWithChildren`.  For each
descriptor in order: keep the existing entry under its key (hints winning
for `static`, the bounds and the override flags); synthesize a new item
from the hint (clamping `w ≤ cols` and `x + w ≤ cols`) or, hintless, at
`x = 0` below the bottom of the layout built so far with size `1 × 1`.
Entries of `layoutBase` without a descriptor are dropped.  The merged
layout is compacted before being returned. -/
def synchronizeLayoutWithChildren (layoutBase : Layout) (children : List ChildDescriptor)
    (cols : Int) (t : CompactType) : Layout :=
  let merged := children.foldl (fun acc c =>
    match getLayoutItem layoutBase c.key, c.dataGrid with
    | some ex, Option.none => acc ++ [ex]
    | some ex, some hint => acc ++ [{ ex with
        isStatic := hint.isStatic,
        minW := hint.minW, maxW := hint.maxW, minH := hint.minH, maxH := hint.maxH,
        isDraggable := hint.isDraggable, isResizable := hint.isResizable,
        isBounded := hint.isBounded }]
    | Option.none, some hint =>
        acc ++ [correctItemBound cols { hint with i := c.key, w := max 1 (min hint.w cols) }]
    | Option.none, Option.none =>
        acc ++ [{ i := c.key, x := 0, y := bottom acc, w := 1, h := 1 }]) []
  compact merged t cols

/-- First stored layout among the given breakpoint names, in order. -/
def firstStoredFrom (layoutsMap : LayoutMap) : List String → Option Layout
  | [] => Option.none
  | n :: rest =>
    match lookupLM layoutsMap n with
    | some l => some l
    | Option.none => firstStoredFrom layoutsMap rest

/-- Modelled from the spec: `findOrGenerateResponsiveLayout`.  An explicit
layout stored for `newBreakpoint` is cloned and compacted with the new
column count.  Otherwise one is derived from `lastBreakpoint`'s stored
layout (or, failing that, from the first stored layout in descending
threshold order, or from the empty layout), clamping every item's width to
`[1, newCols]` and `x + w ≤ newCols`, then compacting.  The spec's
`newCols / oldCols` rescaling mentions a source column count that is not
among the function's stated parameters, so the derivation here clamps
without rescaling; no claim in this development depends on the derived
geometry.  The derivation is never written back into the map. -/
def findOrGenerateResponsiveLayout (layoutsMap : LayoutMap) (breakpoints : BreakpointMap)
    (newBp lastBp : String) (newCols : Int) (t : CompactType) : Layout :=
  match lookupLM layoutsMap newBp with
  | some l => compact (cloneLayout l) t newCols
  | Option.none =>
    let source :=
      match lookupLM layoutsMap lastBp with
      | some l => l
      | Option.none =>
        (firstStoredFrom layoutsMap
          ((sortBreakpoints breakpoints).map (fun (p : String × Int) => p.1))).getD []
    let scaled := source.map (fun l =>
      correctItemBound newCols { l with w := max 1 (min l.w newCols) })
    compact (cloneLayout scaled) t newCols

/-- The copy of the caller's `layouts` object built at the start of the
responsive wrapper's breakpoint-change handling (`onWidthChange`): a fresh
spread of the prop, with the outgoing breakpoint's entry set to a clone of
the in-state layout when the prop has none. -/
def onWidthChangeModifiedLayouts (layouts : LayoutMap) (lastBp : String)
    (stateLayout : Layout) : LayoutMap :=
  if containsLM layouts lastBp then layouts
  else upsertLM layouts lastBp (cloneLayout stateLayout)

/-- The breakpoint-change branch of the responsive wrapper's
`onWidthChange`: build the modified layout set, find or generate the new
breakpoint's layout, synchronize it with the children, store it under the
new breakpoint, and hand `(layout, modifiedLayouts)` to the callbacks. -/
def onWidthChangeResult (layouts : LayoutMap) (breakpoints : BreakpointMap)
    (lastBp newBp : String) (stateLayout : Layout) (children : List ChildDescriptor)
    (newCols : Int) (t : CompactType) : Layout × LayoutMap :=
  let modified := onWidthChangeModifiedLayouts layouts lastBp stateLayout
  let layout₀ := findOrGenerateResponsiveLayout modified breakpoints newBp lastBp newCols t
  let layout₁ := synchronizeLayoutWithChildren layout₀ children newCols t
  (layout₁, upsertLM modified newBp layout₁)

/-- The responsive wrapper's own `onLayoutChange`: it calls the caller's
callback with `(layout, {...layouts, [breakpoint]: layout})`. -/
def wrappedOnLayoutChangeArg (layouts : LayoutMap) (breakpoint : String)
    (layout : Layout) : LayoutMap :=
  upsertLM layouts breakpoint layout

/-- A one-item fixture layout: item `a` at `(0, 3)`, size `1 × 1`. -/
def itemA03 : LayoutItem := { i := "a", x := 0, y := 3, w := 1, h := 1 }

/-- Fixture state: `itemA03` stored, with a session snapshot of the same. -/
def stateA03 : GridState := { layoutState := [itemA03], oldLayout := some [itemA03] }

/-- Fixture props with `preventCollision` enabled. -/
def propsPC : GridProps := { preventCollision := true }

/-- Fixture state for the drag-move pipeline: `itemA03` stored, snapshots
of it taken at drag start. -/
def dragStateA03 : GridState :=
  { layoutState := [itemA03], oldLayout := some [itemA03], oldDragItem := some itemA03 }

/-- Scenario-D fixture: the resized item `A` at `x = 0`. -/
def itemAresize : LayoutItem := { i := "A", x := 0, y := 0, w := 2, h := 1 }

/-- Scenario-D fixture: the static neighbour occupying columns `[4, 6)`. -/
def itemBstatic : LayoutItem :=
  { i := "B", x := 4, y := 0, w := 2, h := 1, isStatic := true }

/-- Scenario-D fixture layout. -/
def layoutD : Layout := [itemAresize, itemBstatic]

/-- Fixture helper: a minimal layout item with the given key and geometry. -/
def mkI (i : String) (x y w h : Int) : LayoutItem :=
  { i := i, x := x, y := y, w := w, h := h }

/-- C3 counterexample fixture: item `b` starts out of bounds (`x = 5` in a
one-column grid), so the closing clamp moves it on top of `a`. -/
def layoutCtrV : Layout := [mkI "a" 0 0 1 1, mkI "b" 5 0 1 1]

/-- C3 counterexample fixture for horizontal compaction: every item fits in
ten columns, yet the packing still differs between the first and second pass. -/
def layoutCtrH : Layout :=
  [mkI "a" 0 0 5 1, mkI "b" 0 1 7 1, mkI "c" 1 0 2 2, mkI "d" 2 0 4 1]

/-- C3 witness fixture: an in-bounds two-item layout. -/
def layoutIdemW : Layout := [mkI "a" 0 0 1 1, mkI "b" 0 2 1 1]

theorem setY_self (l : LayoutItem) : setY l l.y = l := rfl

theorem setX_self (l : LayoutItem) : setX l l.x = l := rfl

theorem setY_setY (l : LayoutItem) (a b : Int) : setY (setY l a) b = setY l b := rfl

theorem collides_symm (a b : LayoutItem) : collides a b = collides b a := by
  simp only [collides]
  have hbeq : (a.i == b.i) = (b.i == a.i) := by
    cases h : b.i == a.i
    · rw [beq_eq_false_iff_ne] at h ⊢
      exact fun e => h e.symm
    · rw [beq_iff_eq] at h ⊢
      exact h.symm
  rw [hbeq]
  cases b.i == a.i <;> cases decide (a.x < b.x + b.w) <;> cases decide (b.x < a.x + a.w) <;>
    cases decide (a.y < b.y + b.h) <;> cases decide (b.y < a.y + a.h) <;> rfl

/-- Unfolding of `collides` into its propositional parts. -/
theorem collides_iff (a b : LayoutItem) :
    collides a b = true ↔
      a.i ≠ b.i ∧ a.x < b.x + b.w ∧ b.x < a.x + a.w ∧ a.y < b.y + b.h ∧ b.y < a.y + a.h := by
  simp [collides, and_assoc]

theorem bottom_nonneg (layout : Layout) : 0 ≤ bottom layout := by
  induction layout with
  | nil => simp [bottom]
  | cons a as ih =>
    simp only [bottom, List.foldr_cons] at *
    exact le_max_of_le_right ih

theorem le_bottom {layout : Layout} {q : LayoutItem} (h : q ∈ layout) :
    q.y + q.h ≤ bottom layout := by
  induction layout with
  | nil => cases h
  | cons a as ih =>
    simp only [bottom, List.foldr_cons]
    rcases List.mem_cons.mp h with rfl | h'
    · exact le_max_left _ _
    · exact le_trans (ih h') (le_max_right _ _)

theorem natListLt_trans :
    ∀ {a b c : List Nat}, natListLt a b = true → natListLt b c = true → natListLt a c = true
  | [], [], _, h, _ => by cases h
  | [], _ :: _, [] , _, h => by cases h
  | [], _ :: _, _ :: _, _, _ => rfl
  | _ :: _, [], _, h, _ => by cases h
  | _ :: _, _ :: _, [], _, h => by cases h
  | a :: as, b :: bs, c :: cs, h₁, h₂ => by
    simp only [natListLt, Bool.or_eq_true, Bool.and_eq_true, decide_eq_true_iff,
      beq_iff_eq] at h₁ h₂ ⊢
    rcases h₁ with h₁ | ⟨rfl, h₁⟩
    · rcases h₂ with h₂ | ⟨rfl, _⟩
      · exact Or.inl (lt_trans h₁ h₂)
      · exact Or.inl h₁
    · rcases h₂ with h₂ | ⟨rfl, h₂⟩
      · exact Or.inl h₂
      · exact Or.inr ⟨rfl, natListLt_trans h₁ h₂⟩

theorem natListLt_antisymm :
    ∀ {a b : List Nat}, natListLt a b = false → natListLt b a = false → a = b
  | [], [], _, _ => rfl
  | [], _ :: _, h, _ => by cases h
  | _ :: _, [], _, h => by cases h
  | a :: as, b :: bs, h₁, h₂ => by
    simp only [natListLt, Bool.or_eq_false_iff, Bool.and_eq_false_iff,
      decide_eq_false_iff_not, not_lt, beq_eq_false_iff_ne, ne_eq] at h₁ h₂
    obtain ⟨hab, h₁'⟩ := h₁
    obtain ⟨hba, h₂'⟩ := h₂
    have heq : a = b := le_antisymm hba hab
    subst heq
    rcases h₁' with h | h₁'
    · exact absurd rfl h
    · rcases h₂' with h | h₂'
      · exact absurd rfl h
      · rw [natListLt_antisymm h₁' h₂']

theorem natListLt_irrefl (a : List Nat) : natListLt a a = false := by
  induction a with
  | nil => rfl
  | cons x xs ih => simp [natListLt, ih]

theorem natListLt_asymm {a b : List Nat} (h : natListLt a b = true) :
    natListLt b a = false := by
  cases hba : natListLt b a
  · rfl
  · have hcon := natListLt_trans h hba
    rw [natListLt_irrefl] at hcon
    cases hcon

theorem itemLtV_iff {a b : LayoutItem} : itemLtV a b = true ↔
    a.y < b.y ∨ (a.y = b.y ∧
      (a.x < b.x ∨ (a.x = b.x ∧ natListLt (keyChars a.i) (keyChars b.i) = true))) := by
  simp [itemLtV]

theorem itemLtH_iff {a b : LayoutItem} : itemLtH a b = true ↔
    a.x < b.x ∨ (a.x = b.x ∧
      (a.y < b.y ∨ (a.y = b.y ∧ natListLt (keyChars a.i) (keyChars b.i) = true))) := by
  simp [itemLtH]

theorem itemLtV_trans {a b c : LayoutItem} (h₁ : itemLtV a b = true)
    (h₂ : itemLtV b c = true) : itemLtV a c = true := by
  rw [itemLtV_iff] at h₁ h₂ ⊢
  rcases h₁ with h₁ | ⟨e₁, h₁'⟩
  · rcases h₂ with h₂ | ⟨e₂, _⟩
    · exact Or.inl (by omega)
    · exact Or.inl (by omega)
  · rcases h₂ with h₂ | ⟨e₂, h₂'⟩
    · exact Or.inl (by omega)
    · refine Or.inr ⟨by omega, ?_⟩
      rcases h₁' with h₁' | ⟨f₁, g₁⟩
      · rcases h₂' with h₂' | ⟨f₂, _⟩
        · exact Or.inl (by omega)
        · exact Or.inl (by omega)
      · rcases h₂' with h₂' | ⟨f₂, g₂⟩
        · exact Or.inl (by omega)
        · exact Or.inr ⟨by omega, natListLt_trans g₁ g₂⟩

theorem itemLtH_trans {a b c : LayoutItem} (h₁ : itemLtH a b = true)
    (h₂ : itemLtH b c = true) : itemLtH a c = true := by
  rw [itemLtH_iff] at h₁ h₂ ⊢
  rcases h₁ with h₁ | ⟨e₁, h₁'⟩
  · rcases h₂ with h₂ | ⟨e₂, _⟩
    · exact Or.inl (by omega)
    · exact Or.inl (by omega)
  · rcases h₂ with h₂ | ⟨e₂, h₂'⟩
    · exact Or.inl (by omega)
    · refine Or.inr ⟨by omega, ?_⟩
      rcases h₁' with h₁' | ⟨f₁, g₁⟩
      · rcases h₂' with h₂' | ⟨f₂, _⟩
        · exact Or.inl (by omega)
        · exact Or.inl (by omega)
      · rcases h₂' with h₂' | ⟨f₂, g₂⟩
        · exact Or.inl (by omega)
        · exact Or.inr ⟨by omega, natListLt_trans g₁ g₂⟩

theorem itemLtV_key_eq {a b : LayoutItem} (h₁ : itemLtV a b = false)
    (h₂ : itemLtV b a = false) :
    a.y = b.y ∧ a.x = b.x ∧ keyChars a.i = keyChars b.i := by
  have H₁ : ¬ (a.y < b.y ∨ (a.y = b.y ∧
      (a.x < b.x ∨ (a.x = b.x ∧ natListLt (keyChars a.i) (keyChars b.i) = true)))) := by
    rw [← itemLtV_iff, h₁]; simp
  have H₂ : ¬ (b.y < a.y ∨ (b.y = a.y ∧
      (b.x < a.x ∨ (b.x = a.x ∧ natListLt (keyChars b.i) (keyChars a.i) = true)))) := by
    rw [← itemLtV_iff, h₂]; simp
  have hy : a.y = b.y := by
    rcases lt_trichotomy a.y b.y with h | h | h
    · exact absurd (Or.inl h) H₁
    · exact h
    · exact absurd (Or.inl h) H₂
  have hx : a.x = b.x := by
    rcases lt_trichotomy a.x b.x with h | h | h
    · exact absurd (Or.inr ⟨hy, Or.inl h⟩) H₁
    · exact h
    · exact absurd (Or.inr ⟨hy.symm, Or.inl h⟩) H₂
  refine ⟨hy, hx, ?_⟩
  have n₁ : natListLt (keyChars a.i) (keyChars b.i) = false := by
    cases hn : natListLt (keyChars a.i) (keyChars b.i)
    · rfl
    · exact absurd (Or.inr ⟨hy, Or.inr ⟨hx, hn⟩⟩) H₁
  have n₂ : natListLt (keyChars b.i) (keyChars a.i) = false := by
    cases hn : natListLt (keyChars b.i) (keyChars a.i)
    · rfl
    · exact absurd (Or.inr ⟨hy.symm, Or.inr ⟨hx.symm, hn⟩⟩) H₂
  exact natListLt_antisymm n₁ n₂

theorem itemLtH_key_eq {a b : LayoutItem} (h₁ : itemLtH a b = false)
    (h₂ : itemLtH b a = false) :
    a.x = b.x ∧ a.y = b.y ∧ keyChars a.i = keyChars b.i := by
  have H₁ : ¬ (a.x < b.x ∨ (a.x = b.x ∧
      (a.y < b.y ∨ (a.y = b.y ∧ natListLt (keyChars a.i) (keyChars b.i) = true)))) := by
    rw [← itemLtH_iff, h₁]; simp
  have H₂ : ¬ (b.x < a.x ∨ (b.x = a.x ∧
      (b.y < a.y ∨ (b.y = a.y ∧ natListLt (keyChars b.i) (keyChars a.i) = true)))) := by
    rw [← itemLtH_iff, h₂]; simp
  have hx : a.x = b.x := by
    rcases lt_trichotomy a.x b.x with h | h | h
    · exact absurd (Or.inl h) H₁
    · exact h
    · exact absurd (Or.inl h) H₂
  have hy : a.y = b.y := by
    rcases lt_trichotomy a.y b.y with h | h | h
    · exact absurd (Or.inr ⟨hx, Or.inl h⟩) H₁
    · exact h
    · exact absurd (Or.inr ⟨hx.symm, Or.inl h⟩) H₂
  refine ⟨hx, hy, ?_⟩
  have n₁ : natListLt (keyChars a.i) (keyChars b.i) = false := by
    cases hn : natListLt (keyChars a.i) (keyChars b.i)
    · rfl
    · exact absurd (Or.inr ⟨hx, Or.inr ⟨hy, hn⟩⟩) H₁
  have n₂ : natListLt (keyChars b.i) (keyChars a.i) = false := by
    cases hn : natListLt (keyChars b.i) (keyChars a.i)
    · rfl
    · exact absurd (Or.inr ⟨hx.symm, Or.inr ⟨hy.symm, hn⟩⟩) H₂
  exact natListLt_antisymm n₁ n₂

theorem itemLtV_congr {a b : LayoutItem} (hy : a.y = b.y) (hx : a.x = b.x)
    (hi : keyChars a.i = keyChars b.i) (c : LayoutItem) :
    itemLtV a c = itemLtV b c ∧ itemLtV c a = itemLtV c b := by
  unfold itemLtV
  rw [hy, hx, hi]
  exact ⟨rfl, rfl⟩

theorem itemLtH_congr {a b : LayoutItem} (hx : a.x = b.x) (hy : a.y = b.y)
    (hi : keyChars a.i = keyChars b.i) (c : LayoutItem) :
    itemLtH a c = itemLtH b c ∧ itemLtH c a = itemLtH c b := by
  unfold itemLtH
  rw [hy, hx, hi]
  exact ⟨rfl, rfl⟩

theorem leIdx_trans (lt : LayoutItem → LayoutItem → Bool)
    (ltTrans : ∀ {a b c}, lt a b = true → lt b c = true → lt a c = true)
    (ltCongr : ∀ {a b}, lt a b = false → lt b a = false →
      ∀ c, lt a c = lt b c ∧ lt c a = lt c b)
    {p q r : Nat × LayoutItem} (h₁ : leIdx lt p q = true) (h₂ : leIdx lt q r = true) :
    leIdx lt p r = true := by
  unfold leIdx at h₁ h₂ ⊢
  simp only [Bool.or_eq_true, Bool.and_eq_true, Bool.not_eq_true',
    decide_eq_true_iff] at h₁ h₂ ⊢
  rcases h₁ with h₁ | ⟨h₁, i₁⟩
  · rcases h₂ with h₂ | ⟨h₂, i₂⟩
    · exact Or.inl (ltTrans h₁ h₂)
    · cases hqr : lt q.2 r.2
      · have hc := ltCongr hqr h₂ p.2
        exact Or.inl (by rw [← hc.2]; exact h₁)
      · exact Or.inl (ltTrans h₁ hqr)
  · rcases h₂ with h₂ | ⟨h₂, i₂⟩
    · cases hpq : lt p.2 q.2
      · have hc := ltCongr hpq h₁ r.2
        exact Or.inl (by rw [hc.1]; exact h₂)
      · exact Or.inl (ltTrans hpq h₂)
    · refine Or.inr ⟨?_, le_trans i₁ i₂⟩
      cases hrp : lt r.2 p.2
      · rfl
      · cases hpq : lt p.2 q.2
        · have hc := ltCongr hpq h₁ r.2
          rw [hc.2, h₂] at hrp
          cases hrp
        · have hco := ltTrans hrp hpq
          rw [h₂] at hco
          cases hco

theorem leIdx_total (lt : LayoutItem → LayoutItem → Bool) (p q : Nat × LayoutItem) :
    (leIdx lt p q || leIdx lt q p) = true := by
  unfold leIdx
  cases h₁ : lt p.2 q.2 <;> cases h₂ : lt q.2 p.2 <;> simp [h₁, h₂] <;> omega

instance : IsTrans (Nat × LayoutItem) sortRelV :=
  ⟨fun _ _ _ h₁ h₂ => leIdx_trans itemLtV (fun h h' => itemLtV_trans h h')
    (fun h h' c => by
      obtain ⟨hy, hx, hi⟩ := itemLtV_key_eq h h'
      exact itemLtV_congr hy hx hi c) h₁ h₂⟩

instance : IsTrans (Nat × LayoutItem) sortRelH :=
  ⟨fun _ _ _ h₁ h₂ => leIdx_trans itemLtH (fun h h' => itemLtH_trans h h')
    (fun h h' c => by
      obtain ⟨hx, hy, hi⟩ := itemLtH_key_eq h h'
      exact itemLtH_congr hx hy hi c) h₁ h₂⟩

instance : IsTotal (Nat × LayoutItem) sortRelV :=
  ⟨fun p q => by
    have h := leIdx_total itemLtV p q
    rcases Bool.or_eq_true_iff.mp h with h | h
    · exact Or.inl h
    · exact Or.inr h⟩

instance : IsTotal (Nat × LayoutItem) sortRelH :=
  ⟨fun p q => by
    have h := leIdx_total itemLtH p q
    rcases Bool.or_eq_true_iff.mp h with h | h
    · exact Or.inl h
    · exact Or.inr h⟩

theorem searchMin_spec (p : Int → Bool) :
    ∀ (n : Nat) (c : Int), (∃ k : Nat, k < n ∧ p (c + k) = true) →
      p (searchMin p n c) = true ∧ c ≤ searchMin p n c ∧
        ∀ z, c ≤ z → z < searchMin p n c → p z = false := by
  intro n
  induction n with
  | zero =>
    rintro c ⟨k, hk, _⟩
    omega
  | succ n ih =>
    rintro c ⟨k, hk, hpk⟩
    by_cases hc : p c = true
    · refine ⟨by simpa [searchMin, hc] using hc, by simp [searchMin, hc], ?_⟩
      intro z h₁ h₂
      simp only [searchMin, hc, if_true] at h₂
      omega
    · have hc' : p c = false := by
        cases hcc : p c
        · rfl
        · exact absurd hcc hc
      have hk0 : k ≠ 0 := by
        intro h
        subst h
        simp only [Nat.cast_zero, add_zero] at hpk
        exact hc hpk
      have hcast : c + 1 + ((k - 1 : Nat) : Int) = c + k := by omega
      obtain ⟨ih₁, ih₂, ih₃⟩ := ih (c + 1) ⟨k - 1, by omega, by rw [hcast]; exact hpk⟩
      have hred : searchMin p (n + 1) c = searchMin p n (c + 1) := by
        simp [searchMin, hc']
      refine ⟨by rw [hred]; exact ih₁, by rw [hred]; omega, ?_⟩
      intro z h₁ h₂
      rw [hred] at h₂
      rcases eq_or_lt_of_le h₁ with rfl | h₁'
      · exact hc'
      · exact ih₃ z (by omega) h₂

theorem searchMin_eq (p : Int → Bool) (n : Nat) (c t : Int) (hct : c ≤ t)
    (ht : p t = true) (hbelow : ∀ z, c ≤ z → z < t → p z = false)
    (hn : t < c + n) : searchMin p n c = t := by
  have hcast : c + (((t - c).toNat : Nat) : Int) = t := by omega
  obtain ⟨h₁, h₂, h₃⟩ := searchMin_spec p n c ⟨(t - c).toNat, by omega, by rw [hcast]; exact ht⟩
  rcases lt_trichotomy (searchMin p n c) t with h | h | h
  · rw [hbelow _ h₂ h] at h₁
    cases h₁
  · exact h
  · rw [h₃ t hct h] at ht
    cases ht

theorem rightEdge_nonneg (layout : Layout) : 0 ≤ rightEdge layout := by
  induction layout with
  | nil => simp [rightEdge]
  | cons a as ih =>
    simp only [rightEdge, List.foldr_cons] at *
    exact le_max_of_le_right ih

theorem le_rightEdge {layout : Layout} {q : LayoutItem} (h : q ∈ layout) :
    q.x + q.w ≤ rightEdge layout := by
  induction layout with
  | nil => cases h
  | cons a as ih =>
    simp only [rightEdge, List.foldr_cons]
    rcases List.mem_cons.mp h with rfl | h'
    · exact le_max_left _ _
    · exact le_trans (ih h') (le_max_right _ _)

theorem find_map_upsert_ne (rest : LayoutMap) (k j : String) (v : Layout) (h : j ≠ k) :
    (rest.map (fun p => if p.1 == k then (k, v) else p)).find? (fun p => p.1 == j) =
      rest.find? (fun p => p.1 == j) := by
  induction rest with
  | nil => rfl
  | cons p rest ih =>
    simp only [List.map_cons]
    by_cases hp : p.1 = k
    · have h1 : (p.1 == k) = true := beq_iff_eq.mpr hp
      have h2 : ((k, v).1 == j) = false := beq_eq_false_iff_ne.mpr (fun e => h e.symm)
      have h3 : (p.1 == j) = false := by
        rw [beq_eq_false_iff_ne]
        intro e
        exact h (by rw [← e]; exact hp)
      rw [h1]
      simp only [if_true]
      rw [@List.find?_cons_of_neg _ (fun q => q.1 == j) (k, v) _ (by simp only [h2]; exact Bool.false_ne_true),
        @List.find?_cons_of_neg _ (fun q => q.1 == j) p rest (by simp only [h3]; exact Bool.false_ne_true)]
      exact ih
    · have h1 : (p.1 == k) = false := beq_eq_false_iff_ne.mpr hp
      rw [h1]
      simp only [Bool.false_eq_true, if_false]
      cases hpj : p.1 == j
      · rw [@List.find?_cons_of_neg _ (fun q => q.1 == j) p _ (by simp only [hpj]; exact Bool.false_ne_true),
          @List.find?_cons_of_neg _ (fun q => q.1 == j) p rest (by simp only [hpj]; exact Bool.false_ne_true)]
        exact ih
      · rw [@List.find?_cons_of_pos _ (fun q => q.1 == j) p _ (by simp only [hpj]),
          @List.find?_cons_of_pos _ (fun q => q.1 == j) p rest hpj]

theorem lookupLM_upsert_other (m : LayoutMap) (k : String) (v : Layout) (j : String)
    (h : j ≠ k) : lookupLM (upsertLM m k v) j = lookupLM m j := by
  unfold upsertLM lookupLM
  by_cases hc : containsLM m k
  · rw [if_pos hc, find_map_upsert_ne m k j v h]
  · rw [if_neg hc, List.find?_append]
    have h2 : ((k, v).1 == j) = false := beq_eq_false_iff_ne.mpr (fun e => h e.symm)
    rw [show List.find? (fun p => p.1 == j) [(k, v)] = Option.none from by
      rw [@List.find?_cons_of_neg _ (fun q => q.1 == j) (k, v) []
        (by simp only [h2]; exact Bool.false_ne_true)]; rfl]
    rw [Option.or_none]

theorem containsLM_false_lookup {m : LayoutMap} {k : String} (h : containsLM m k = false) :
    lookupLM m k = Option.none := by
  unfold lookupLM
  rw [List.find?_eq_none.mpr, Option.map_none']
  intro p hp
  unfold containsLM at h
  rw [List.any_eq_false] at h
  exact h p hp

theorem containsLM_true_lookup {m : LayoutMap} {k : String} (h : containsLM m k = true) :
    ∃ w, lookupLM m k = some w := by
  unfold containsLM at h
  rw [List.any_eq_true] at h
  obtain ⟨p₀, hp₀, hk₀⟩ := h
  induction m with
  | nil => cases hp₀
  | cons p rest ih =>
    by_cases hp : (p.1 == k) = true
    · refine ⟨p.2, ?_⟩
      unfold lookupLM
      rw [@List.find?_cons_of_pos _ (fun q => q.1 == k) p rest (by simp only; exact hp)]
      rfl
    · rcases List.mem_cons.mp hp₀ with rfl | hmem
      · exact absurd hk₀ hp
      · obtain ⟨w, hw⟩ := ih hmem
        refine ⟨w, ?_⟩
        unfold lookupLM at hw ⊢
        rw [@List.find?_cons_of_neg _ (fun q => q.1 == k) p rest (by simp only; exact hp)]
        exact hw

theorem lookupLM_upsert_self (m : LayoutMap) (k : String) (v : Layout) :
    lookupLM (upsertLM m k v) k = some v := by
  unfold upsertLM
  by_cases hc : containsLM m k
  · rw [if_pos hc]
    unfold containsLM at hc
    rw [List.any_eq_true] at hc
    obtain ⟨p₀, hp₀, hk₀⟩ := hc
    induction m with
    | nil => cases hp₀
    | cons p rest ih =>
      simp only [List.map_cons]
      by_cases hp : (p.1 == k) = true
      · rw [hp]
        simp only [if_true]
        unfold lookupLM
        rw [@List.find?_cons_of_pos _ (fun q => q.1 == k) (k, v) _ (by simp)]
        rfl
      · have h1 : (p.1 == k) = false := by
          cases hh : p.1 == k
          · rfl
          · exact absurd hh hp
        rw [h1]
        simp only [Bool.false_eq_true, if_false]
        rcases List.mem_cons.mp hp₀ with rfl | hmem
        · exact absurd hk₀ hp
        · have hrec := ih hmem
          unfold lookupLM at hrec ⊢
          rw [@List.find?_cons_of_neg _ (fun q => q.1 == k) p _ (by simp only; exact hp)]
          exact hrec
  · rw [if_neg hc]
    unfold lookupLM
    rw [List.find?_append]
    rw [List.find?_eq_none.mpr (fun p hp => by
      unfold containsLM at hc
      rw [Bool.not_eq_true, List.any_eq_false] at hc
      exact Bool.not_eq_true _ ▸ hc p hp)]
    rw [Option.none_or,
      @List.find?_cons_of_pos _ (fun q => q.1 == k) (k, v) [] (by simp)]
    rfl

/-- C7.  The responsive wrapper derives updated layout sets instead of
mutating the caller's: the mapping handed to the caller's `onLayoutChange`
by the wrapped handler is the caller's set with exactly the current
breakpoint's entry replaced (that key maps to the new layout, every other
key reads unchanged), and the set built from a fresh copy by the
width/breakpoint-change path agrees with the caller's set on every key
other than the outgoing and the new breakpoint. -/
theorem responsive_wrapper_preserves_caller_layouts
    (layouts : LayoutMap) (bp : String) (layout : Layout)
    (breakpoints : BreakpointMap) (lastBp newBp : String) (stateLayout : Layout)
    (children : List ChildDescriptor) (newCols : Int) (t : CompactType) (k : String)
    (hk : k ≠ bp) (hk₁ : k ≠ lastBp) (hk₂ : k ≠ newBp) :
    lookupLM (wrappedOnLayoutChangeArg layouts bp layout) k = lookupLM layouts k ∧
    lookupLM (wrappedOnLayoutChangeArg layouts bp layout) bp = some layout ∧
    lookupLM (onWidthChangeResult layouts breakpoints lastBp newBp stateLayout
        children newCols t).2 k = lookupLM layouts k := by
  refine ⟨lookupLM_upsert_other _ _ _ _ hk, lookupLM_upsert_self _ _ _, ?_⟩
  unfold onWidthChangeResult
  simp only
  rw [lookupLM_upsert_other _ _ _ _ hk₂]
  unfold onWidthChangeModifiedLayouts
  by_cases hc : containsLM layouts lastBp
  · rw [if_pos hc]
  · rw [if_neg hc]
    exact lookupLM_upsert_other _ _ _ _ hk₁

/-- Closed instance of `responsive_wrapper_preserves_caller_layouts`. -/
theorem responsive_wrapper_preserves_caller_layouts_witness :
    ("sm" : String) ≠ "md" ∧ ("sm" : String) ≠ "lg" ∧
    (lookupLM (wrappedOnLayoutChangeArg [("sm", []), ("md", [])] "md"
        [{ i := "a", x := 0, y := 0, w := 1, h := 1 }]) "sm" =
      lookupLM [("sm", []), ("md", [])] "sm" ∧
    lookupLM (wrappedOnLayoutChangeArg [("sm", []), ("md", [])] "md"
        [{ i := "a", x := 0, y := 0, w := 1, h := 1 }]) "md" =
      some [{ i := "a", x := 0, y := 0, w := 1, h := 1 }] ∧
    lookupLM (onWidthChangeResult [("sm", []), ("md", [])] [("lg", 1200), ("md", 996)]
        "lg" "md" [] [] 10 CompactType.vertical).2 "sm" =
      lookupLM [("sm", []), ("md", [])] "sm") :=
  ⟨by decide, by decide,
    responsive_wrapper_preserves_caller_layouts
      [("sm", []), ("md", [])] "md" [{ i := "a", x := 0, y := 0, w := 1, h := 1 }]
      [("lg", 1200), ("md", 996)] "lg" "md" [] [] 10 CompactType.vertical "sm"
      (by decide) (by decide) (by decide)⟩

/-- C10.  On a breakpoint change, the layout set used by the responsive
wrapper — both the one handed to `findOrGenerateResponsiveLayout` and the
one handed to `onLayoutChange` — carries an entry for the outgoing
breakpoint: the caller's own entry when the `layouts` prop has one, and a
clone of the current in-state layout otherwise. -/
theorem onWidthChange_preserves_last_breakpoint
    (layouts : LayoutMap) (breakpoints : BreakpointMap) (lastBp newBp : String)
    (stateLayout : Layout) (children : List ChildDescriptor) (newCols : Int)
    (t : CompactType) (hne : lastBp ≠ newBp) :
    lookupLM (onWidthChangeModifiedLayouts layouts lastBp stateLayout) lastBp =
      some ((lookupLM layouts lastBp).getD (cloneLayout stateLayout)) ∧
    lookupLM (onWidthChangeResult layouts breakpoints lastBp newBp stateLayout
        children newCols t).2 lastBp =
      some ((lookupLM layouts lastBp).getD (cloneLayout stateLayout)) := by
  have hfirst : lookupLM (onWidthChangeModifiedLayouts layouts lastBp stateLayout) lastBp =
      some ((lookupLM layouts lastBp).getD (cloneLayout stateLayout)) := by
    unfold onWidthChangeModifiedLayouts
    by_cases hc : containsLM layouts lastBp
    · rw [if_pos hc]
      obtain ⟨w, hw⟩ := containsLM_true_lookup hc
      rw [hw]
      rfl
    · rw [if_neg hc]
      have hnone : lookupLM layouts lastBp = Option.none :=
        containsLM_false_lookup (Bool.not_eq_true _ ▸ hc)
      rw [hnone, lookupLM_upsert_self]
      rfl
  refine ⟨hfirst, ?_⟩
  unfold onWidthChangeResult
  simp only
  rw [lookupLM_upsert_other _ _ _ _ hne]
  exact hfirst

/-- Closed instance of `onWidthChange_preserves_last_breakpoint`. -/
theorem onWidthChange_preserves_last_breakpoint_witness :
    ("md" : String) ≠ "lg" ∧
    (lookupLM (onWidthChangeModifiedLayouts [("sm", [])] "md"
        [{ i := "a", x := 0, y := 0, w := 1, h := 1 }]) "md" =
      some ((lookupLM [("sm", [])] "md").getD
        (cloneLayout [{ i := "a", x := 0, y := 0, w := 1, h := 1 }])) ∧
    lookupLM (onWidthChangeResult [("sm", [])] [("lg", 1200), ("md", 996)] "md" "lg"
        [{ i := "a", x := 0, y := 0, w := 1, h := 1 }] [] 12 CompactType.vertical).2 "md" =
      some ((lookupLM [("sm", [])] "md").getD
        (cloneLayout [{ i := "a", x := 0, y := 0, w := 1, h := 1 }]))) :=
  ⟨by decide,
    onWidthChange_preserves_last_breakpoint [("sm", [])] [("lg", 1200), ("md", 996)]
      "md" "lg" [{ i := "a", x := 0, y := 0, w := 1, h := 1 }] [] 12 CompactType.vertical
      (by decide)⟩

/-- C9.  For every rendered grid item, the effective bounded flag can be
true only when the effective draggable flag is: a static item, an item with
`isDraggable` explicitly `false`, or a container with dragging disabled
yields a non-bounded item regardless of any `isBounded` setting. -/
theorem bounded_only_if_draggable :
    (∀ (dragProp boundProp : Bool) (l : LayoutItem),
        processBounded dragProp boundProp l = true → processDraggable dragProp l = true) ∧
    (∀ (dragProp boundProp : Bool) (l : LayoutItem), l.isStatic = true →
        processBounded dragProp boundProp l = false) ∧
    (∀ (dragProp boundProp : Bool) (l : LayoutItem), l.isDraggable = some false →
        processBounded dragProp boundProp l = false) ∧
    (∀ (boundProp : Bool) (l : LayoutItem), processBounded false boundProp l = false) := by
  refine ⟨?_, ?_, ?_, ?_⟩
  · intro dragProp boundProp l h
    unfold processBounded at h
    exact (Bool.and_eq_true .. ▸ (Bool.and_eq_true .. ▸ h).1).1
  · intro dragProp boundProp l h
    unfold processBounded processDraggable
    rw [h]
    rfl
  · intro dragProp boundProp l h
    unfold processBounded processDraggable
    rw [h]
    simp
  · intro boundProp l
    unfold processBounded processDraggable
    simp

/-- Closed instance of `bounded_only_if_draggable`. -/
theorem bounded_only_if_draggable_witness :
    (processBounded true true { i := "a", x := 0, y := 0, w := 1, h := 1 } = true ∧
      processDraggable true { i := "a", x := 0, y := 0, w := 1, h := 1 } = true) ∧
    (({ i := "s", x := 0, y := 0, w := 1, h := 1, isStatic := true } : LayoutItem).isStatic = true ∧
      processBounded true true
        { i := "s", x := 0, y := 0, w := 1, h := 1, isStatic := true } = false) ∧
    (({ i := "d", x := 0, y := 0, w := 1, h := 1, isDraggable := some false,
          isBounded := some true } : LayoutItem).isDraggable = some false ∧
      processBounded true true
        { i := "d", x := 0, y := 0, w := 1, h := 1, isDraggable := some false,
          isBounded := some true } = false) :=
  ⟨⟨by decide, bounded_only_if_draggable.1 true true _ (by decide)⟩,
    ⟨by decide, bounded_only_if_draggable.2.1 true true _ (by decide)⟩,
    ⟨by decide, bounded_only_if_draggable.2.2.1 true true _ (by decide)⟩⟩

/-- C6.  The grid-unit size delivered by `onResizeHandler` is the
pixel-derived `calcWH` result with `w` clamped to `[1, cols - x]` and then
to `[minW, maxW]`, and `h` clamped to `[minH, maxH]`. -/
theorem onResizeHandler_clamps (p : GridItemProps) (heightPx widthPx : Rat) :
    onResizeHandlerWH p heightPx widthPx =
      (specResizeW p (calcWH p heightPx widthPx).1,
       specResizeH p (calcWH p heightPx widthPx).2) := by
  unfold onResizeHandlerWH specResizeW specResizeH clampRange iminOpt
  cases p.maxW <;> cases p.maxH <;> simp only [Prod.mk.injEq] <;> constructor <;> omega

/-- C2 counterexample.  A resize-stop event for a key absent from the
layout is not a no-op: `handleResizeStop` has no early return, so the
`onResizeStop` notification fires anyway (with a null item). -/
theorem resizeStop_absent_key_not_noop :
    (handleResizeStop {} { layoutState := [{ i := "a", x := 0, y := 0, w := 1, h := 1 }] }
        "b" 1 1).2 ≠ [] ∧
    (handleResizeStop {} { layoutState := [{ i := "a", x := 0, y := 0, w := 1, h := 1 }] }
        "b" 1 1).2.head? =
      some (GridEvent.resizeStopEv [{ i := "a", x := 0, y := 0, w := 1, h := 1 }]
        Option.none Option.none) := by
  constructor
  · decide
  · decide

/-- C2 (amended).  A drag start/move/stop or resize start/move whose target
key is absent from the layout is a benign no-op: state unchanged, no
notification, no failure.  A resize stop, however, is not guarded: it
always fires `onResizeStop` (with a null item when the key is absent),
recompacts and stores the layout, and clears the session. -/
theorem absent_key_handlers (p : GridProps) (s : GridState) (i : String) (x y w h : Int)
    (habs : getLayoutItem s.layoutState i = Option.none) :
    handleDragStart p s i x y = (s, []) ∧
    handleDrag p s i x y = (s, []) ∧
    handleDragStop p s i x y = (s, []) ∧
    handleResizeStart p s i w h = (s, []) ∧
    handleResize p s i w h = (s, []) ∧
    (handleResizeStop p s i w h).2 =
      GridEvent.resizeStopEv s.layoutState s.oldResizeItem Option.none ::
        handleLayoutMaybeChangedEvents s (compact s.layoutState (fixCompactType p) p.cols) ∧
    (handleResizeStop p s i w h).1.layoutState =
      compact s.layoutState (fixCompactType p) p.cols := by
  refine ⟨?_, ?_, ?_, ?_, ?_, ?_, ?_⟩
  · simp [handleDragStart, habs]
  · simp [handleDrag, habs]
  · simp [handleDragStop, habs]
  · simp [handleResizeStart, habs]
  · simp [handleResize, habs]
  · simp [handleResizeStop, habs]
  · simp [handleResizeStop]

/-- Closed instance of `absent_key_handlers`. -/
theorem absent_key_handlers_witness :
    getLayoutItem [{ i := "a", x := 0, y := 0, w := 1, h := 1 }] "b" = Option.none ∧
    (handleDragStart {} { layoutState := [{ i := "a", x := 0, y := 0, w := 1, h := 1 }] }
        "b" 0 0 =
      ({ layoutState := [{ i := "a", x := 0, y := 0, w := 1, h := 1 }] }, []) ∧
    handleDrag {} { layoutState := [{ i := "a", x := 0, y := 0, w := 1, h := 1 }] } "b" 0 0 =
      ({ layoutState := [{ i := "a", x := 0, y := 0, w := 1, h := 1 }] }, []) ∧
    handleDragStop {} { layoutState := [{ i := "a", x := 0, y := 0, w := 1, h := 1 }] }
        "b" 0 0 =
      ({ layoutState := [{ i := "a", x := 0, y := 0, w := 1, h := 1 }] }, []) ∧
    handleResizeStart {} { layoutState := [{ i := "a", x := 0, y := 0, w := 1, h := 1 }] }
        "b" 1 1 =
      ({ layoutState := [{ i := "a", x := 0, y := 0, w := 1, h := 1 }] }, []) ∧
    handleResize {} { layoutState := [{ i := "a", x := 0, y := 0, w := 1, h := 1 }] }
        "b" 1 1 =
      ({ layoutState := [{ i := "a", x := 0, y := 0, w := 1, h := 1 }] }, []) ∧
    (handleResizeStop {} { layoutState := [{ i := "a", x := 0, y := 0, w := 1, h := 1 }] }
        "b" 1 1).2 =
      GridEvent.resizeStopEv [{ i := "a", x := 0, y := 0, w := 1, h := 1 }]
          Option.none Option.none ::
        handleLayoutMaybeChangedEvents
          { layoutState := [{ i := "a", x := 0, y := 0, w := 1, h := 1 }] }
          (compact [{ i := "a", x := 0, y := 0, w := 1, h := 1 }]
            (fixCompactType {}) (12 : Int)) ∧
    (handleResizeStop {} { layoutState := [{ i := "a", x := 0, y := 0, w := 1, h := 1 }] }
        "b" 1 1).1.layoutState =
      compact [{ i := "a", x := 0, y := 0, w := 1, h := 1 }] (fixCompactType {}) (12 : Int)) :=
  ⟨by decide,
    absent_key_handlers {} { layoutState := [{ i := "a", x := 0, y := 0, w := 1, h := 1 }] }
      "b" 0 0 1 1 (by decide)⟩

/-- C4.  At a drag or resize stop the controller compacts once more, clears
the placeholder, and fires `onLayoutChange` exactly when the final layout
differs (structural equality) from the session-start snapshot. -/
theorem stop_handlers_fire_change_iff (p : GridProps) (s : GridState) (i : String)
    (x y w h : Int) (l : LayoutItem) (old : Layout)
    (hfound : getLayoutItem s.layoutState i = some l)
    (hsnap : s.oldLayout = some old) :
    ((handleDragStop p s i x y).1.layoutState =
        compact (moveElement s.layoutState i x y true p.preventCollision
          (fixCompactType p) p.cols) (fixCompactType p) p.cols ∧
      (handleDragStop p s i x y).1.activeDrag = Option.none ∧
      (GridEvent.layoutChangeEv (handleDragStop p s i x y).1.layoutState ∈
          (handleDragStop p s i x y).2 ↔
        (handleDragStop p s i x y).1.layoutState ≠ old)) ∧
    ((handleResizeStop p s i w h).1.layoutState =
        compact s.layoutState (fixCompactType p) p.cols ∧
      (handleResizeStop p s i w h).1.activeDrag = Option.none ∧
      (GridEvent.layoutChangeEv (handleResizeStop p s i w h).1.layoutState ∈
          (handleResizeStop p s i w h).2 ↔
        (handleResizeStop p s i w h).1.layoutState ≠ old)) := by
  constructor
  · refine ⟨by simp [handleDragStop, hfound], by simp [handleDragStop, hfound], ?_⟩
    simp only [handleDragStop, hfound, handleLayoutMaybeChangedEvents, hsnap, Option.getD_some]
    by_cases hch : old = compact (moveElement s.layoutState i x y true p.preventCollision
        (fixCompactType p) p.cols) (fixCompactType p) p.cols
    · simp [hch]
    · simp only [hch, if_false]
      constructor
      · intro _
        exact fun e => hch e.symm
      · intro _
        simp
  · refine ⟨by simp [handleResizeStop], by simp [handleResizeStop], ?_⟩
    simp only [handleResizeStop, handleLayoutMaybeChangedEvents, hsnap, Option.getD_some]
    by_cases hch : old = compact s.layoutState (fixCompactType p) p.cols
    · simp [hch]
    · simp only [hch, if_false]
      constructor
      · intro _
        exact fun e => hch e.symm
      · intro _
        simp

/-- Closed instance of `stop_handlers_fire_change_iff`. -/
theorem stop_handlers_fire_change_iff_witness :
    getLayoutItem stateA03.layoutState "a" = some itemA03 ∧
    stateA03.oldLayout = some [itemA03] ∧
    (((handleDragStop {} stateA03 "a" 0 0).1.layoutState =
        compact (moveElement stateA03.layoutState "a" 0 0 true false
          (fixCompactType {}) (12 : Int)) (fixCompactType {}) (12 : Int) ∧
      (handleDragStop {} stateA03 "a" 0 0).1.activeDrag = Option.none ∧
      (GridEvent.layoutChangeEv (handleDragStop {} stateA03 "a" 0 0).1.layoutState ∈
          (handleDragStop {} stateA03 "a" 0 0).2 ↔
        (handleDragStop {} stateA03 "a" 0 0).1.layoutState ≠ [itemA03])) ∧
    ((handleResizeStop {} stateA03 "a" 1 1).1.layoutState =
        compact stateA03.layoutState (fixCompactType {}) (12 : Int) ∧
      (handleResizeStop {} stateA03 "a" 1 1).1.activeDrag = Option.none ∧
      (GridEvent.layoutChangeEv (handleResizeStop {} stateA03 "a" 1 1).1.layoutState ∈
          (handleResizeStop {} stateA03 "a" 1 1).2 ↔
        (handleResizeStop {} stateA03 "a" 1 1).1.layoutState ≠ [itemA03]))) :=
  ⟨by decide, by decide,
    stop_handlers_fire_change_iff {} stateA03 "a" 0 0 1 1 itemA03 [itemA03]
      (by decide) (by decide)⟩

/-- C5 counterexample.  During a drag move the layout carried by the
`onDrag` notification is the `moveElement` result before compaction, while
the stored provisional layout is the compacted one — here they differ: the
item is dragged to row 2, the event reports it at row 2, but the stored
layout has it compacted to row 0. -/
theorem handleDrag_emits_uncompacted :
    (handleDrag propsPC dragStateA03 "a" 0 2).2 =
      [GridEvent.dragEv [{ i := "a", x := 0, y := 2, w := 1, h := 1 }] (some itemA03)
        { i := "a", x := 0, y := 2, w := 1, h := 1 }
        { w := 1, h := 1, x := 0, y := 3, i := "a", placeholderFlag := true }] ∧
    (handleDrag propsPC dragStateA03 "a" 0 2).1.layoutState =
      [{ i := "a", x := 0, y := 0, w := 1, h := 1 }] ∧
    [({ i := "a", x := 0, y := 2, w := 1, h := 1 } : LayoutItem)] ≠
      [({ i := "a", x := 0, y := 0, w := 1, h := 1 } : LayoutItem)] := by
  refine ⟨by decide, by decide, by decide⟩

/-- C5 (amended).  A drag move builds the placeholder `{x, y, w, h, i}`
from the item's current geometry, calls `moveElement` with
`isUserAction = true`, stores the compacted result as the provisional
layout together with the placeholder, and fires `onDrag` carrying the
`moveElement` result before compaction (not the stored provisional
layout), the old item snapshot, the updated item, and the placeholder. -/
theorem handleDrag_pipeline (p : GridProps) (s : GridState) (i : String) (x y : Int)
    (l : LayoutItem) (hfound : getLayoutItem s.layoutState i = some l) :
    handleDrag p s i x y =
      ({ s with
          layoutState := compact (moveElement s.layoutState i x y true p.preventCollision
            (fixCompactType p) p.cols) (fixCompactType p) p.cols,
          activeDrag := some { w := l.w, h := l.h, x := l.x, y := l.y, i := i, placeholderFlag := true } },
        [GridEvent.dragEv
          (moveElement s.layoutState i x y true p.preventCollision (fixCompactType p) p.cols)
          s.oldDragItem
          ((getLayoutItem (moveElement s.layoutState i x y true p.preventCollision
            (fixCompactType p) p.cols) i).getD l)
          { w := l.w, h := l.h, x := l.x, y := l.y, i := i, placeholderFlag := true }]) := by
  simp [handleDrag, hfound]

/-- Closed instance of `handleDrag_pipeline`. -/
theorem handleDrag_pipeline_witness :
    getLayoutItem dragStateA03.layoutState "a" = some itemA03 ∧
    handleDrag propsPC dragStateA03 "a" 0 2 =
      ({ dragStateA03 with
          layoutState := compact (moveElement dragStateA03.layoutState "a" 0 2 true
            propsPC.preventCollision (fixCompactType propsPC) propsPC.cols)
            (fixCompactType propsPC) propsPC.cols,
          activeDrag := some { w := itemA03.w, h := itemA03.h, x := itemA03.x, y := itemA03.y, i := "a", placeholderFlag := true } },
        [GridEvent.dragEv
          (moveElement dragStateA03.layoutState "a" 0 2 true propsPC.preventCollision
            (fixCompactType propsPC) propsPC.cols)
          dragStateA03.oldDragItem
          ((getLayoutItem (moveElement dragStateA03.layoutState "a" 0 2 true
            propsPC.preventCollision (fixCompactType propsPC) propsPC.cols) "a").getD itemA03)
          { w := itemA03.w, h := itemA03.h, x := itemA03.x, y := itemA03.y, i := "a",
            placeholderFlag := true }]) :=
  ⟨by decide, handleDrag_pipeline propsPC dragStateA03 "a" 0 2 itemA03 (by decide)⟩

theorem leastAbove_aux (base : Int) :
    ∀ (vs : List Int) (acc : Option Int),
      (vs.foldl (fun acc v => if base < v then
          some (match acc with | Option.none => v | some m => min m v) else acc) acc =
            Option.none →
        acc = Option.none ∧ ∀ v ∈ vs, ¬ base < v) ∧
      (∀ m, vs.foldl (fun acc v => if base < v then
          some (match acc with | Option.none => v | some m => min m v) else acc) acc =
            some m →
        (acc = some m ∨ (m ∈ vs ∧ base < m)) ∧
        (∀ a, acc = some a → m ≤ a) ∧
        (∀ v ∈ vs, base < v → m ≤ v)) := by
  intro vs
  induction vs with
  | nil =>
    intro acc
    simp only [List.foldl_nil]
    refine ⟨fun h => ⟨h, by simp⟩, fun m h => ⟨Or.inl h, ?_, by simp⟩⟩
    intro a ha
    rw [h] at ha
    injection ha with ha
    omega
  | cons v vs ih =>
    intro acc
    simp only [List.foldl_cons]
    by_cases hbv : base < v
    · rw [if_pos hbv]
      rcases hacc : acc with _ | a₀
      · constructor
        · intro h
          exact absurd ((ih (some v)).1 h).1 (by simp)
        · intro m h
          obtain ⟨h₁, h₂, h₃⟩ := (ih (some v)).2 m h
          refine ⟨?_, ?_, ?_⟩
          · rcases h₁ with h₁ | ⟨hm, hbm⟩
            · cases h₁
              exact Or.inr ⟨List.mem_cons_self _ _, hbv⟩
            · exact Or.inr ⟨List.mem_cons_of_mem _ hm, hbm⟩
          · intro a ha
            cases ha
          · intro u hu hbu
            rcases List.mem_cons.mp hu with rfl | hu'
            · exact h₂ u rfl
            · exact h₃ u hu' hbu
      · constructor
        · intro h
          exact absurd ((ih (some (min a₀ v))).1 h).1 (by simp)
        · intro m h
          obtain ⟨h₁, h₂, h₃⟩ := (ih (some (min a₀ v))).2 m h
          have hma : m ≤ min a₀ v := h₂ _ rfl
          refine ⟨?_, ?_, ?_⟩
          · rcases h₁ with h₁ | ⟨hm, hbm⟩
            · cases h₁
              rcases min_choice a₀ v with hmin | hmin
              · exact Or.inl (by rw [hmin])
              · exact Or.inr ⟨by rw [hmin]; exact List.mem_cons_self _ _,
                  by rw [hmin]; exact hbv⟩
            · exact Or.inr ⟨List.mem_cons_of_mem _ hm, hbm⟩
          · intro a ha
            cases ha
            exact le_trans hma (min_le_left _ _)
          · intro u hu hbu
            rcases List.mem_cons.mp hu with rfl | hu'
            · exact le_trans hma (min_le_right _ _)
            · exact h₃ u hu' hbu
    · rw [if_neg hbv]
      constructor
      · intro h
        obtain ⟨h₁, h₂⟩ := (ih acc).1 h
        refine ⟨h₁, ?_⟩
        intro u hu
        rcases List.mem_cons.mp hu with rfl | hu'
        · exact hbv
        · exact h₂ u hu'
      · intro m h
        obtain ⟨h₁, h₂, h₃⟩ := (ih acc).2 m h
        refine ⟨?_, h₂, ?_⟩
        · rcases h₁ with h₁ | ⟨hm, hbm⟩
          · exact Or.inl h₁
          · exact Or.inr ⟨List.mem_cons_of_mem _ hm, hbm⟩
        · intro u hu hbu
          rcases List.mem_cons.mp hu with rfl | hu'
          · exact absurd hbu hbv
          · exact h₃ u hu' hbu

theorem leastAbove_none {base : Int} {vs : List Int} (h : leastAbove base vs = Option.none) :
    ∀ v ∈ vs, ¬ base < v :=
  ((leastAbove_aux base vs Option.none).1 h).2

theorem leastAbove_some {base : Int} {vs : List Int} {m : Int}
    (h : leastAbove base vs = some m) :
    m ∈ vs ∧ base < m ∧ ∀ v ∈ vs, base < v → m ≤ v := by
  obtain ⟨h₁, _, h₃⟩ := (leastAbove_aux base vs Option.none).2 m h
  rcases h₁ with h₁ | ⟨hm, hbm⟩
  · cases h₁
  · exact ⟨hm, hbm, h₃⟩

/-- C1.  During a resize move with `preventCollision`, when the requested
rectangle collides, the item is shrunk instead of reverted: the new right
edge touches (equals) the smallest `x` of the colliding neighbours right of
the item and overlaps none of them, the width staying unchanged when no
colliding neighbour lies to the right; and the same for `h` against the
colliding neighbours below. -/
theorem resize_shrinks_to_nearest_collision (layoutState : Layout) (l : LayoutItem)
    (w h : Int) (collisions : Layout)
    (hcol : collisions = (getAllCollisions layoutState { l with w := w, h := h }).filter
      (fun q => !(q.i == l.i)))
    (hne : collisions ≠ []) :
    ((∃ c ∈ collisions, l.x < c.x) →
      (∀ c ∈ collisions, l.x < c.x →
        l.x + (resizeItemDims layoutState l w h true).1.w ≤ c.x) ∧
      (∃ c ∈ collisions, l.x < c.x ∧
        l.x + (resizeItemDims layoutState l w h true).1.w = c.x)) ∧
    ((∀ c ∈ collisions, ¬ l.x < c.x) →
      (resizeItemDims layoutState l w h true).1.w = l.w) ∧
    ((∃ c ∈ collisions, l.y < c.y) →
      (∀ c ∈ collisions, l.y < c.y →
        l.y + (resizeItemDims layoutState l w h true).1.h ≤ c.y) ∧
      (∃ c ∈ collisions, l.y < c.y ∧
        l.y + (resizeItemDims layoutState l w h true).1.h = c.y)) ∧
    ((∀ c ∈ collisions, ¬ l.y < c.y) →
      (resizeItemDims layoutState l w h true).1.h = l.h) ∧
    (resizeItemDims layoutState l w h true).2 = true := by
  have hemp : collisions.isEmpty = false := by
    cases hc : collisions
    · exact absurd hc hne
    · rfl
  have hres : resizeItemDims layoutState l w h true =
      ({ l with
          w := match leastAbove l.x (collisions.map (fun c => c.x)) with
               | some v => v - l.x
               | Option.none => l.w,
          h := match leastAbove l.y (collisions.map (fun c => c.y)) with
               | some v => v - l.y
               | Option.none => l.h }, true) := by
    rw [resizeItemDims, ← hcol, hemp]
    simp
  refine ⟨?_, ?_, ?_, ?_, by rw [hres]⟩
  · rintro ⟨c₀, hc₀, hlt₀⟩
    rcases hLX : leastAbove l.x (collisions.map (fun c => c.x)) with _ | m
    · exact absurd hlt₀ (leastAbove_none hLX c₀.x (List.mem_map_of_mem _ hc₀))
    · obtain ⟨hmem, hbm, hmin⟩ := leastAbove_some hLX
      have hw : (resizeItemDims layoutState l w h true).1.w = m - l.x := by
        rw [hres, hLX]
      constructor
      · intro c hc hlt
        have hmc := hmin c.x (List.mem_map_of_mem _ hc) hlt
        rw [hw]
        omega
      · obtain ⟨c, hc, hcx⟩ := List.mem_map.mp hmem
        refine ⟨c, hc, ?_, ?_⟩
        · rw [← hcx] at hbm
          exact hbm
        · rw [hw, ← hcx]
          omega
  · intro hall
    rcases hLX : leastAbove l.x (collisions.map (fun c => c.x)) with _ | m
    · rw [hres, hLX]
    · obtain ⟨hmem, hbm, _⟩ := leastAbove_some hLX
      obtain ⟨c, hc, hcx⟩ := List.mem_map.mp hmem
      rw [← hcx] at hbm
      exact absurd hbm (hall c hc)
  · rintro ⟨c₀, hc₀, hlt₀⟩
    rcases hLY : leastAbove l.y (collisions.map (fun c => c.y)) with _ | m
    · exact absurd hlt₀ (leastAbove_none hLY c₀.y (List.mem_map_of_mem _ hc₀))
    · obtain ⟨hmem, hbm, hmin⟩ := leastAbove_some hLY
      have hh : (resizeItemDims layoutState l w h true).1.h = m - l.y := by
        rw [hres, hLY]
      constructor
      · intro c hc hlt
        have hmc := hmin c.y (List.mem_map_of_mem _ hc) hlt
        rw [hh]
        omega
      · obtain ⟨c, hc, hcy⟩ := List.mem_map.mp hmem
        refine ⟨c, hc, ?_, ?_⟩
        · rw [← hcy] at hbm
          exact hbm
        · rw [hh, ← hcy]
          omega
  · intro hall
    rcases hLY : leastAbove l.y (collisions.map (fun c => c.y)) with _ | m
    · rw [hres, hLY]
    · obtain ⟨hmem, hbm, _⟩ := leastAbove_some hLY
      obtain ⟨c, hc, hcy⟩ := List.mem_map.mp hmem
      rw [← hcy] at hbm
      exact absurd hbm (hall c hc)

/-- Closed instance of `resize_shrinks_to_nearest_collision`: scenario D —
`A` at `x = 0` resized to reach `x = 5` against the static neighbour on
`[4, 6)` ends with its right edge at `x = 4`, i.e. `w = 4`. -/
theorem resize_shrinks_to_nearest_collision_witness :
    (([itemBstatic] : Layout) =
        (getAllCollisions layoutD { itemAresize with w := 5, h := 1 }).filter
          (fun q => !(q.i == itemAresize.i)) ∧
      ([itemBstatic] : Layout) ≠ []) ∧
    (((∃ c ∈ ([itemBstatic] : Layout), itemAresize.x < c.x) →
        (∀ c ∈ ([itemBstatic] : Layout), itemAresize.x < c.x →
          itemAresize.x + (resizeItemDims layoutD itemAresize 5 1 true).1.w ≤ c.x) ∧
        (∃ c ∈ ([itemBstatic] : Layout), itemAresize.x < c.x ∧
          itemAresize.x + (resizeItemDims layoutD itemAresize 5 1 true).1.w = c.x)) ∧
      ((∀ c ∈ ([itemBstatic] : Layout), ¬ itemAresize.x < c.x) →
        (resizeItemDims layoutD itemAresize 5 1 true).1.w = itemAresize.w) ∧
      ((∃ c ∈ ([itemBstatic] : Layout), itemAresize.y < c.y) →
        (∀ c ∈ ([itemBstatic] : Layout), itemAresize.y < c.y →
          itemAresize.y + (resizeItemDims layoutD itemAresize 5 1 true).1.h ≤ c.y) ∧
        (∃ c ∈ ([itemBstatic] : Layout), itemAresize.y < c.y ∧
          itemAresize.y + (resizeItemDims layoutD itemAresize 5 1 true).1.h = c.y)) ∧
      ((∀ c ∈ ([itemBstatic] : Layout), ¬ itemAresize.y < c.y) →
        (resizeItemDims layoutD itemAresize 5 1 true).1.h = itemAresize.h) ∧
      (resizeItemDims layoutD itemAresize 5 1 true).2 = true) ∧
    (resizeItemDims layoutD itemAresize 5 1 true).1.w = 4 :=
  ⟨⟨by decide, by decide⟩,
    resize_shrinks_to_nearest_collision layoutD itemAresize 5 1 [itemBstatic]
      (by decide) (by decide),
    by decide⟩

/-- C8 counterexample.  For breakpoints `{lg: 1200, md: 996, xs: 480}` and
width `800`, the largest threshold `≤ 800` is `480`, so the resolved
breakpoint is `xs` — not `md` as the concrete scenario claims (`996 > 800`). -/
theorem getBreakpointFromWidth_concrete_not_md :
    getBreakpointFromWidth [("lg", 1200), ("md", 996), ("xs", 480)] 800 = "xs" ∧
    getBreakpointFromWidth [("lg", 1200), ("md", 996), ("xs", 480)] 800 ≠ "md" := by
  constructor
  · decide
  · decide

/-- C8 (amended).  `getBreakpointFromWidth` returns the name of an entry
whose threshold is the largest one `≤ width`, falling back to the
smallest-threshold breakpoint when the width is below every threshold; at
breakpoints `{lg: 1200, md: 996, xs: 480}` and width `800` this resolves to
`xs` (the `480` threshold), not `md`. -/
theorem getBreakpointFromWidth_largest_le :
    (∀ (bps : BreakpointMap) (width : Int), bps ≠ [] →
      ∃ p : String × Int, p ∈ bps ∧ getBreakpointFromWidth bps width = p.1 ∧
        ((p.2 ≤ width ∧ ∀ q ∈ bps, q.2 ≤ width → q.2 ≤ p.2) ∨
          ((∀ q ∈ bps, width < q.2) ∧ ∀ q ∈ bps, p.2 ≤ q.2))) ∧
    getBreakpointFromWidth [("lg", 1200), ("md", 996), ("xs", 480)] 800 = "xs" := by
  constructor
  · intro bps width hne
    have hperm : (sortBreakpoints bps).Perm bps := List.perm_insertionSort _ _
    have hsorted : List.Pairwise (fun a b : String × Int => b.2 ≤ a.2)
        (sortBreakpoints bps) := by
      haveI : IsTotal (String × Int) (fun a b => b.2 ≤ a.2) := ⟨fun a b => le_total b.2 a.2⟩
      haveI : IsTrans (String × Int) (fun a b => b.2 ≤ a.2) :=
        ⟨fun a b c h₁ h₂ => le_trans h₂ h₁⟩
      exact List.sorted_insertionSort _ bps
    cases hf : (sortBreakpoints bps).find? (fun p => decide (p.2 ≤ width)) with
    | some p =>
      obtain ⟨hpp, as, bs, hdecomp, hprefix⟩ := List.find?_eq_some.mp hf
      have hple : p.2 ≤ width := of_decide_eq_true hpp
      have hpmem : p ∈ bps := hperm.mem_iff.mp
        (hdecomp ▸ List.mem_append_right as (List.mem_cons_self p bs))
      have hval : getBreakpointFromWidth bps width = p.1 := by
        unfold getBreakpointFromWidth
        simp only [hf]
      have hmax : ∀ q ∈ bps, q.2 ≤ width → q.2 ≤ p.2 := by
        intro q hq hqw
        have hqs : q ∈ sortBreakpoints bps := hperm.mem_iff.mpr hq
        rw [hdecomp] at hqs hsorted
        rcases List.mem_append.mp hqs with hqa | hqb
        · have hnq := hprefix q hqa
          simp only [Bool.not_eq_true', decide_eq_false_iff_not] at hnq
          exact absurd hqw hnq
        · rcases List.mem_cons.mp hqb with rfl | hqb'
          · exact le_refl _
          · have hp2 := (List.pairwise_append.mp hsorted).2.1
            exact (List.pairwise_cons.mp hp2).1 q hqb'
      exact ⟨p, hpmem, hval, Or.inl ⟨hple, hmax⟩⟩
    | none =>
      have hfn := List.find?_eq_none.mp hf
      have hne' : sortBreakpoints bps ≠ [] := by
        intro h0
        have hlen := hperm.length_eq
        rw [h0] at hlen
        cases bps with
        | nil => exact hne rfl
        | cons b bs => simp at hlen
      have hlastq : (sortBreakpoints bps).getLast? =
          some ((sortBreakpoints bps).getLast hne') := List.getLast?_eq_getLast _ hne'
      have hval : getBreakpointFromWidth bps width =
          ((sortBreakpoints bps).getLast hne').1 := by
        unfold getBreakpointFromWidth
        simp only [hf, hlastq, Option.map_some', Option.getD_some]
      have hmem : (sortBreakpoints bps).getLast hne' ∈ bps :=
        hperm.mem_iff.mp (List.getLast_mem hne')
      have habove : ∀ q ∈ bps, width < q.2 := by
        intro q hq
        have hnq := hfn q (hperm.mem_iff.mpr hq)
        simp only [decide_eq_true_eq] at hnq
        omega
      have hminimal : ∀ q ∈ bps, ((sortBreakpoints bps).getLast hne').2 ≤ q.2 := by
        intro q hq
        have hqs : q ∈ sortBreakpoints bps := hperm.mem_iff.mpr hq
        have hdecomp := List.dropLast_append_getLast hne'
        rw [← hdecomp] at hqs hsorted
        rcases List.mem_append.mp hqs with hqd | hqlast
        · exact (List.pairwise_append.mp hsorted).2.2 q hqd _ (List.mem_singleton_self _)
        · rw [List.mem_singleton.mp hqlast]
      exact ⟨_, hmem, hval, Or.inr ⟨habove, hminimal⟩⟩
  · decide

/-- Closed instance of `getBreakpointFromWidth_largest_le`. -/
theorem getBreakpointFromWidth_largest_le_witness :
    ([(("lg" : String), (1200 : Int)), ("md", 996), ("xs", 480)] : BreakpointMap) ≠ [] ∧
    (∃ p : String × Int, p ∈ ([(("lg" : String), (1200 : Int)), ("md", 996), ("xs", 480)] :
        BreakpointMap) ∧
      getBreakpointFromWidth [("lg", 1200), ("md", 996), ("xs", 480)] 800 = p.1 ∧
      ((p.2 ≤ 800 ∧ ∀ q ∈ ([(("lg" : String), (1200 : Int)), ("md", 996), ("xs", 480)] :
          BreakpointMap), q.2 ≤ 800 → q.2 ≤ p.2) ∨
        ((∀ q ∈ ([(("lg" : String), (1200 : Int)), ("md", 996), ("xs", 480)] :
            BreakpointMap), (800 : Int) < q.2) ∧
          ∀ q ∈ ([(("lg" : String), (1200 : Int)), ("md", 996), ("xs", 480)] :
            BreakpointMap), p.2 ≤ q.2))) :=
  ⟨by decide,
    getBreakpointFromWidth_largest_le.1 [("lg", 1200), ("md", 996), ("xs", 480)] 800
      (by decide)⟩

theorem setY_x (l : LayoutItem) (y' : Int) : (setY l y').x = l.x := rfl

theorem setY_y (l : LayoutItem) (y' : Int) : (setY l y').y = y' := rfl

theorem setY_w (l : LayoutItem) (y' : Int) : (setY l y').w = l.w := rfl

theorem setY_h (l : LayoutItem) (y' : Int) : (setY l y').h = l.h := rfl

theorem setY_i (l : LayoutItem) (y' : Int) : (setY l y').i = l.i := rfl

theorem setY_isStatic (l : LayoutItem) (y' : Int) : (setY l y').isStatic = l.isStatic := rfl

theorem collides_false_of_above (a b : LayoutItem) (h : b.y + b.h ≤ a.y) :
    collides a b = false := by
  unfold collides
  have hd : decide (a.y < b.y + b.h) = false := decide_eq_false (by omega)
  rw [hd]
  simp

theorem collides_false_of_below (a b : LayoutItem) (h : a.y + a.h ≤ b.y) :
    collides a b = false := by
  unfold collides
  have hd : decide (b.y < a.y + a.h) = false := decide_eq_false (by omega)
  rw [hd]
  simp

theorem freeAtV_iff {obs : Layout} {l : LayoutItem} {z : Int} :
    freeAtV obs l z = true ↔ ∀ q ∈ obs, collides (setY l z) q = false := by
  unfold freeAtV
  rw [List.all_eq_true]
  constructor
  · intro hh q hq
    have := hh q hq
    cases hc : collides (setY l z) q
    · rfl
    · rw [hc] at this
      cases this
  · intro hh q hq
    rw [hh q hq]
    rfl

theorem freeAtV_false_iff {obs : Layout} {l : LayoutItem} {z : Int} :
    freeAtV obs l z = false ↔ ∃ q ∈ obs, collides (setY l z) q = true := by
  rw [← Bool.not_eq_true, freeAtV_iff]
  push_neg
  constructor
  · rintro ⟨q, hq, hne⟩
    refine ⟨q, hq, ?_⟩
    cases hc : collides (setY l z) q
    · exact absurd hc hne
    · rfl
  · rintro ⟨q, hq, hc⟩
    exact ⟨q, hq, by simp [hc]⟩

theorem minFreeV_spec (obs : Layout) (l : LayoutItem) :
    freeAtV obs l (minFreeV obs l) = true ∧ 0 ≤ minFreeV obs l ∧
      ∀ z, 0 ≤ z → z < minFreeV obs l → freeAtV obs l z = false := by
  have hfree : freeAtV obs l (bottom obs) = true := by
    rw [freeAtV_iff]
    intro q hq
    exact collides_false_of_above _ _ (by rw [setY_y]; exact le_bottom hq)
  have hcast : (0 : Int) + ((bottom obs).toNat : Int) = bottom obs := by
    have := bottom_nonneg obs
    omega
  obtain ⟨h₁, h₂, h₃⟩ := searchMin_spec (freeAtV obs l) ((bottom obs).toNat + 1) 0
    ⟨(bottom obs).toNat, by omega, by rw [hcast]; exact hfree⟩
  exact ⟨h₁, h₂, h₃⟩

theorem minFreeV_eq (obs : Layout) (l : LayoutItem) (t : Int) (h0 : 0 ≤ t)
    (hfree : freeAtV obs l t = true)
    (hblocked : ∀ z, 0 ≤ z → z < t → freeAtV obs l z = false) :
    minFreeV obs l = t := by
  apply searchMin_eq _ _ _ _ h0 hfree hblocked
  have hbn := bottom_nonneg obs
  rcases eq_or_lt_of_le h0 with rfl | hpos
  · omega
  · have hb := hblocked (t - 1) (by omega) (by omega)
    rw [freeAtV_false_iff] at hb
    obtain ⟨q, hq, hcol⟩ := hb
    have hparts := (collides_iff _ _).mp hcol
    rw [setY_y, setY_h] at hparts
    have hqb := le_bottom hq
    have h1 : t - 1 < q.y + q.h := hparts.2.2.2.1
    omega

theorem blocker_below {l q : LayoutItem} {z : Int} (hqh : 1 ≤ q.h)
    (hblock : collides (setY l z) q = true) (hfree : collides l q = false)
    (hz : z < l.y) : q.y + q.h ≤ l.y ∧ q.y < l.y := by
  have hparts := (collides_iff _ _).mp hblock
  rw [setY_i, setY_x, setY_w, setY_y, setY_h] at hparts
  obtain ⟨hi, hx₁, hx₂, hy₁, hy₂⟩ := hparts
  have hnot : ¬ (l.i ≠ q.i ∧ l.x < q.x + q.w ∧ q.x < l.x + l.w ∧
      l.y < q.y + q.h ∧ q.y < l.y + l.h) := by
    rw [← collides_iff, hfree]
    simp
  have hupper : q.y + q.h ≤ l.y := by
    by_contra hcon
    push_neg at hcon
    exact hnot ⟨hi, hx₁, hx₂, hcon, by omega⟩
  exact ⟨hupper, by omega⟩

theorem runV_inv (statics : Layout) (hst : ∀ q ∈ statics, q.isStatic = true) :
    ∀ (todo : List (Nat × LayoutItem)) (placed : Layout),
      (∀ p ∈ todo, p.2.isStatic = true → p.2 ∈ statics) →
      (∀ p ∈ todo, 1 ≤ p.2.h) →
      (∀ q ∈ placed, 1 ≤ q.h) →
      ((∀ p ∈ runCompact CompactType.vertical statics todo placed, p.2.isStatic = false →
          0 ≤ p.2.y ∧ ∀ q ∈ statics ++ placed, collides p.2 q = false) ∧
       List.Pairwise (fun p q => ¬(p.2.isStatic = true ∧ q.2.isStatic = true) →
          collides p.2 q.2 = false) (runCompact CompactType.vertical statics todo placed) ∧
       (∀ p ∈ runCompact CompactType.vertical statics todo placed, p.2.isStatic = false →
          ∀ z, 0 ≤ z → z < p.2.y →
          ∃ q, (q ∈ statics ∨ q ∈ placed ∨
              (∃ r ∈ runCompact CompactType.vertical statics todo placed,
                r.2.isStatic = false ∧ q = r.2)) ∧
            collides (setY p.2 z) q = true ∧ (q.isStatic = true ∨ q.y < p.2.y)) ∧
       (∀ p ∈ runCompact CompactType.vertical statics todo placed,
          ∃ q ∈ todo, p.1 = q.1 ∧ p.2.x = q.2.x ∧ p.2.w = q.2.w ∧ p.2.h = q.2.h ∧
            p.2.i = q.2.i ∧ p.2.isStatic = q.2.isStatic ∧
            (q.2.isStatic = true → p.2 = q.2)) ∧
       (∀ p ∈ todo, p.2.isStatic = true →
          p ∈ runCompact CompactType.vertical statics todo placed)) := by
  intro todo
  induction todo with
  | nil =>
    intro placed _ _ _
    refine ⟨?_, ?_, ?_, ?_, ?_⟩ <;> simp [runCompact]
  | cons hd rest ih =>
    obtain ⟨j, l⟩ := hd
    intro placed hts hth hph
    have hts' : ∀ p ∈ rest, p.2.isStatic = true → p.2 ∈ statics :=
      fun p hp => hts p (List.mem_cons_of_mem _ hp)
    have hth' : ∀ p ∈ rest, 1 ≤ p.2.h := fun p hp => hth p (List.mem_cons_of_mem _ hp)
    by_cases hs : l.isStatic = true
    · have hrw : runCompact CompactType.vertical statics ((j, l) :: rest) placed =
          (j, l) :: runCompact CompactType.vertical statics rest placed := by
        simp [runCompact, hs]
      obtain ⟨ihA, ihB, ihC, ihE, ihF⟩ := ih placed hts' hth' hph
      have hls : l ∈ statics := hts (j, l) (List.mem_cons_self _ _) hs
      refine ⟨?_, ?_, ?_, ?_, ?_⟩
      · intro p hp hpns
        rw [hrw] at hp
        rcases List.mem_cons.mp hp with rfl | hp'
        · rw [hs] at hpns
          cases hpns
        · exact ihA p hp' hpns
      · rw [hrw]
        refine List.Pairwise.cons ?_ ihB
        intro r hr hns
        have hrns : r.2.isStatic = false := by
          cases hrs : r.2.isStatic
          · rfl
          · exact absurd ⟨hs, hrs⟩ hns
        rw [collides_symm]
        exact (ihA r hr hrns).2 l (List.mem_append_left _ hls)
      · intro p hp hpns z hz hzlt
        rw [hrw] at hp
        rcases List.mem_cons.mp hp with rfl | hp'
        · rw [hs] at hpns
          cases hpns
        · obtain ⟨q, hqloc, hqcol, hqdich⟩ := ihC p hp' hpns z hz hzlt
          refine ⟨q, ?_, hqcol, hqdich⟩
          rcases hqloc with h | h | ⟨r, hr, hrns, rfl⟩
          · exact Or.inl h
          · exact Or.inr (Or.inl h)
          · exact Or.inr (Or.inr ⟨r, by rw [hrw]; exact List.mem_cons_of_mem _ hr, hrns, rfl⟩)
      · intro p hp
        rw [hrw] at hp
        rcases List.mem_cons.mp hp with rfl | hp'
        · exact ⟨(j, l), List.mem_cons_self _ _, rfl, rfl, rfl, rfl, rfl, rfl, fun _ => rfl⟩
        · obtain ⟨q, hq, hrest⟩ := ihE p hp'
          exact ⟨q, List.mem_cons_of_mem _ hq, hrest⟩
      · intro p hp hps
        rw [hrw]
        rcases List.mem_cons.mp hp with rfl | hp'
        · exact List.mem_cons_self _ _
        · exact List.mem_cons_of_mem _ (ihF p hp' hps)
    · have hs' : l.isStatic = false := by
        cases hc : l.isStatic
        · rfl
        · exact absurd hc hs
      obtain ⟨hfree, h0le, hbelow⟩ := minFreeV_spec (statics ++ placed) l
      set l' := setY l (minFreeV (statics ++ placed) l) with hldef
      have hrw : runCompact CompactType.vertical statics ((j, l) :: rest) placed =
          (j, l') :: runCompact CompactType.vertical statics rest (placed ++ [l']) := by
        rw [hldef]
        simp [runCompact, hs', placeStep]
      have hl'y : l'.y = minFreeV (statics ++ placed) l := by
        rw [hldef, setY_y]
      have hl'ns : l'.isStatic = false := by
        rw [hldef, setY_isStatic]
        exact hs'
      have hl'h : l'.h = l.h := by
        rw [hldef, setY_h]
      have hfree' : ∀ q ∈ statics ++ placed, collides l' q = false := freeAtV_iff.mp hfree
      have hph' : ∀ q ∈ placed ++ [l'], 1 ≤ q.h := by
        intro q hq
        rcases List.mem_append.mp hq with h | h
        · exact hph q h
        · rw [List.mem_singleton.mp h, hl'h]
          exact hth (j, l) (List.mem_cons_self _ _)
      obtain ⟨ihA, ihB, ihC, ihE, ihF⟩ := ih (placed ++ [l']) hts' hth' hph'
      have hl'mem : l' ∈ placed ++ [l'] :=
        List.mem_append_right _ (List.mem_singleton_self _)
      refine ⟨?_, ?_, ?_, ?_, ?_⟩
      · intro p hp hpns
        rw [hrw] at hp
        rcases List.mem_cons.mp hp with rfl | hp'
        · refine ⟨?_, hfree'⟩
          rw [hl'y]
          exact h0le
        · obtain ⟨hy0, hcols⟩ := ihA p hp' hpns
          exact ⟨hy0, fun q hq => hcols q (by
            rcases List.mem_append.mp hq with h | h
            · exact List.mem_append_left _ h
            · exact List.mem_append_right _ (List.mem_append_left _ h))⟩
      · rw [hrw]
        refine List.Pairwise.cons ?_ ihB
        intro r hr hns
        cases hrs : r.2.isStatic
        · have := (ihA r hr hrs).2 l' (List.mem_append_right _ hl'mem)
          rw [collides_symm]
          exact this
        · obtain ⟨q, hq, _, _, _, _, _, hqs, himp⟩ := ihE r hr
          have hqstat : q.2.isStatic = true := by
            rw [← hqs]
            exact hrs
          have hreq : r.2 = q.2 := himp hqstat
          have hqmem : q.2 ∈ statics := hts' q hq hqstat
          rw [hreq]
          exact hfree' q.2 (List.mem_append_left _ hqmem)
      · intro p hp hpns z hz hzlt
        rw [hrw] at hp
        rcases List.mem_cons.mp hp with rfl | hp'
        · have hzlt' : z < minFreeV (statics ++ placed) l := by
            rw [← hl'y]
            exact hzlt
          have hblocked := hbelow z hz hzlt'
          rw [freeAtV_false_iff] at hblocked
          obtain ⟨q, hq, hqcol⟩ := hblocked
          have hqcol' : collides (setY l' z) q = true := by
            rw [hldef, setY_setY]
            exact hqcol
          rcases List.mem_append.mp hq with hmem | hmem
          · exact ⟨q, Or.inl hmem, hqcol', Or.inl (hst q hmem)⟩
          · have hdich := blocker_below (hph q hmem) hqcol'
              (hfree' q (List.mem_append_right _ hmem)) hzlt
            exact ⟨q, Or.inr (Or.inl hmem), hqcol', Or.inr hdich.2⟩
        · obtain ⟨q, hqloc, hqcol, hqdich⟩ := ihC p hp' hpns z hz hzlt
          refine ⟨q, ?_, hqcol, hqdich⟩
          rcases hqloc with h | h | ⟨r, hr, hrns, rfl⟩
          · exact Or.inl h
          · rcases List.mem_append.mp h with h' | h'
            · exact Or.inr (Or.inl h')
            · refine Or.inr (Or.inr ⟨(j, l'), ?_, hl'ns, (List.mem_singleton.mp h').symm ▸ rfl⟩)
              rw [hrw]
              exact List.mem_cons_self _ _
          · exact Or.inr (Or.inr ⟨r, by rw [hrw]; exact List.mem_cons_of_mem _ hr, hrns, rfl⟩)
      · intro p hp
        rw [hrw] at hp
        rcases List.mem_cons.mp hp with rfl | hp'
        · refine ⟨(j, l), List.mem_cons_self _ _, rfl, ?_, ?_, ?_, ?_, ?_, ?_⟩
          · rw [hldef, setY_x]
          · rw [hldef, setY_w]
          · rw [hldef, setY_h]
          · rw [hldef, setY_i]
          · rw [hldef, setY_isStatic]
          · intro hstat
            rw [hs'] at hstat
            cases hstat
        · obtain ⟨q, hq, hrest⟩ := ihE p hp'
          exact ⟨q, List.mem_cons_of_mem _ hq, hrest⟩
      · intro p hp hps
        rw [hrw]
        rcases List.mem_cons.mp hp with rfl | hp'
        · rw [hs'] at hps
          cases hps
        · exact List.mem_cons_of_mem _ (ihF p hp' hps)

theorem runV_fst (t : CompactType) (statics : Layout) :
    ∀ (todo : List (Nat × LayoutItem)) (placed : Layout),
      (runCompact t statics todo placed).map Prod.fst = todo.map Prod.fst := by
  intro todo
  induction todo with
  | nil => intro placed; rfl
  | cons hd rest ih =>
    obtain ⟨j, l⟩ := hd
    intro placed
    by_cases hs : l.isStatic = true
    · simp only [runCompact, hs, if_true, List.map_cons, ih]
    · have hs' : l.isStatic = false := by
        cases hc : l.isStatic
        · rfl
        · exact absurd hc hs
      simp only [runCompact, hs', Bool.false_eq_true, if_false, List.map_cons, ih]

theorem find_by_fst :
    ∀ (ps : List (Nat × LayoutItem)), (ps.map Prod.fst).Nodup →
      ∀ {j : Nat} {u : LayoutItem}, (j, u) ∈ ps →
        ps.find? (fun q => q.1 == j) = some (j, u) := by
  intro ps
  induction ps with
  | nil =>
    intro _ j u h
    cases h
  | cons p ps' ih =>
    intro hnd j u hmem
    rw [List.map_cons, List.nodup_cons] at hnd
    rcases List.mem_cons.mp hmem with rfl | hmem'
    · exact @List.find?_cons_of_pos _ (fun q => q.1 == j) (j, u) ps' (by simp)
    · have hne : p.1 ≠ j := by
        intro he
        apply hnd.1
        rw [he]
        exact List.mem_map_of_mem Prod.fst hmem'
      rw [@List.find?_cons_of_neg _ (fun q => q.1 == j) p ps' (by simp [hne])]
      exact ih hnd.2 hmem'

theorem restoreOrder_length (L : Layout) (placed : List (Nat × LayoutItem)) :
    (restoreOrder L placed).length = L.length := by
  unfold restoreOrder
  rw [List.length_map, List.enum_length]

theorem restoreOrder_getElem? (L : Layout) (placed : List (Nat × LayoutItem))
    (hnd : (placed.map Prod.fst).Nodup) {j : Nat} {u : LayoutItem}
    (hmem : (j, u) ∈ placed) (hj : j < L.length) :
    (restoreOrder L placed)[j]? = some u := by
  unfold restoreOrder
  rw [List.getElem?_map, List.getElem?_enum, List.getElem?_eq_getElem hj]
  simp [find_by_fst placed hnd hmem]

theorem restore_enum_mem (L : Layout) (placed : List (Nat × LayoutItem))
    (hnd : (placed.map Prod.fst).Nodup)
    (hcov : ∀ j, j < L.length → ∃ u, (j, u) ∈ placed)
    (hidx : ∀ p ∈ placed, p.1 < L.length) :
    ∀ {j : Nat} {u : LayoutItem},
      ((j, u) ∈ (restoreOrder L placed).enum ↔ (j, u) ∈ placed) := by
  intro j u
  constructor
  · intro h
    rw [List.mem_enum_iff_getElem?] at h
    have hj : j < L.length := by
      by_contra hcon
      push_neg at hcon
      rw [List.getElem?_eq_none (by rw [restoreOrder_length]; omega)] at h
      cases h
    obtain ⟨u₀, hu₀⟩ := hcov j hj
    rw [restoreOrder_getElem? L placed hnd hu₀ hj] at h
    injection h with h
    have h' : u₀ = u := h
    rw [← h']
    exact hu₀
  · intro h
    rw [List.mem_enum_iff_getElem?]
    exact restoreOrder_getElem? L placed hnd h (hidx _ h)

theorem leIdxV_y_le {p q : Nat × LayoutItem} (h : leIdx itemLtV p q = true) :
    p.2.y ≤ q.2.y := by
  unfold leIdx at h
  rcases Bool.or_eq_true_iff.mp h with h | h
  · rcases itemLtV_iff.mp h with h | ⟨he, _⟩
    · exact le_of_lt h
    · exact le_of_eq he
  · have h1 := (Bool.and_eq_true .. ▸ h).1
    rw [Bool.not_eq_true'] at h1
    by_contra hcon
    push_neg at hcon
    have hq : itemLtV q.2 p.2 = true := itemLtV_iff.mpr (Or.inl hcon)
    rw [h1] at hq
    cases hq

theorem nsVals_append_static (pre : List (Nat × LayoutItem)) (j : Nat) (l : LayoutItem)
    (hs : l.isStatic = true) :
    ((pre ++ [(j, l)]).filter (fun p => !p.2.isStatic)).map Prod.snd =
      (pre.filter (fun p => !p.2.isStatic)).map Prod.snd := by
  rw [List.filter_append]
  simp [hs]

theorem nsVals_append_nonstatic (pre : List (Nat × LayoutItem)) (j : Nat) (l : LayoutItem)
    (hs : l.isStatic = false) :
    ((pre ++ [(j, l)]).filter (fun p => !p.2.isStatic)).map Prod.snd =
      (pre.filter (fun p => !p.2.isStatic)).map Prod.snd ++ [l] := by
  rw [List.filter_append]
  simp [hs]

theorem pass2_fixpoint (R : Layout)
    (P1 : ∀ (ju : Nat) (u : LayoutItem) (jv : Nat) (v : LayoutItem),
      (ju, u) ∈ R.enum → (jv, v) ∈ R.enum → ju ≠ jv → u.isStatic = false →
      collides u v = false)
    (P2 : ∀ (j : Nat) (lI : LayoutItem), (j, lI) ∈ R.enum → lI.isStatic = false →
      ∀ z, 0 ≤ z → z < lI.y →
      ∃ q ∈ R, collides (setY lI z) q = true ∧ (q.isStatic = true ∨ q.y < lI.y))
    (P3 : ∀ lI ∈ R, lI.isStatic = false → 0 ≤ lI.y) :
    ∀ (s pre : List (Nat × LayoutItem)),
      List.insertionSort sortRelV R.enum = pre ++ s →
      runCompact CompactType.vertical (R.filter (fun q => q.isStatic)) s
        ((pre.filter (fun p => !p.2.isStatic)).map Prod.snd) = s := by
  have hperm : (List.insertionSort sortRelV R.enum).Perm R.enum :=
    List.perm_insertionSort _ _
  have hsort : List.Pairwise sortRelV (List.insertionSort sortRelV R.enum) :=
    List.sorted_insertionSort _ _
  have hnd : ((List.insertionSort sortRelV R.enum).map Prod.fst).Nodup := by
    have h1 := (hperm.map Prod.fst).nodup_iff
    rw [List.enum_map_fst] at h1
    exact h1.mpr (List.nodup_range _)
  intro s
  induction s with
  | nil =>
    intro pre _
    rfl
  | cons hd rest ih =>
    obtain ⟨j, l⟩ := hd
    intro pre hs
    have hmemJL : (j, l) ∈ R.enum := hperm.mem_iff.mp
      (by rw [hs]; exact List.mem_append_right _ (List.mem_cons_self _ _))
    have hlR : l ∈ R := by
      have h0 : R[j]? = some l := List.mem_enum_iff_getElem?.mp hmemJL
      obtain ⟨hlt, he⟩ := List.getElem?_eq_some.mp h0
      exact List.mem_iff_getElem.mpr ⟨j, hlt, he⟩
    have hmemJL' : (j, l) ∈ R.enum := hperm.mem_iff.mp
      (by rw [hs]; exact List.mem_append_right _ (List.mem_cons_self _ _))
    by_cases hstat : l.isStatic = true
    · have hrw : runCompact CompactType.vertical (R.filter (fun q => q.isStatic))
          ((j, l) :: rest) ((pre.filter (fun p => !p.2.isStatic)).map Prod.snd) =
          (j, l) :: runCompact CompactType.vertical (R.filter (fun q => q.isStatic))
            rest ((pre.filter (fun p => !p.2.isStatic)).map Prod.snd) := by
        simp [runCompact, hstat]
      rw [hrw]
      congr 1
      have hrec := ih (pre ++ [(j, l)]) (by rw [hs, List.append_assoc]; rfl)
      rw [nsVals_append_static pre j l hstat] at hrec
      exact hrec
    · have hns : l.isStatic = false := by
        cases hc : l.isStatic
        · rfl
        · exact absurd hc hstat
      have hfree : freeAtV (R.filter (fun q => q.isStatic) ++
          (pre.filter (fun p => !p.2.isStatic)).map Prod.snd) l l.y = true := by
        rw [freeAtV_iff]
        intro q hq
        rw [setY_self]
        rcases List.mem_append.mp hq with hqs | hqp
        · have hqR := List.mem_filter.mp hqs
          obtain ⟨jq, hjq, hRjq⟩ := List.mem_iff_getElem.mp hqR.1
          have hjqmem : (jq, q) ∈ R.enum := by
            rw [List.mem_enum_iff_getElem?]
            show R[jq]? = some q
            rw [List.getElem?_eq_getElem hjq, hRjq]
          have hne : j ≠ jq := by
            intro he
            subst he
            have hRl : R[j]? = some l := List.mem_enum_iff_getElem?.mp hmemJL
            have hRq : R[j]? = some q := List.mem_enum_iff_getElem?.mp hjqmem
            rw [hRl] at hRq
            injection hRq with he2
            rw [← he2] at hqR
            rw [hqR.2] at hns
            cases hns
          exact P1 j l jq q hmemJL hjqmem hne hns
        · obtain ⟨pq, hpq, hpqv⟩ := List.mem_map.mp hqp
          have hpqf := List.mem_filter.mp hpq
          have hpqenum : pq ∈ R.enum := hperm.mem_iff.mp
            (by rw [hs]; exact List.mem_append_left _ hpqf.1)
          have hne : j ≠ pq.1 := by
            have hnd2 := hnd
            rw [hs, List.map_append, List.nodup_append] at hnd2
            intro he
            refine hnd2.2.2 (List.mem_map_of_mem Prod.fst hpqf.1) ?_
            rw [List.map_cons]
            rw [← he]
            exact List.mem_cons_self _ _
          have hcole := P1 j l pq.1 pq.2 hmemJL hpqenum hne hns
          rw [← hpqv]
          exact hcole
      have hblocked : ∀ z, 0 ≤ z → z < l.y →
          freeAtV (R.filter (fun q => q.isStatic) ++
            (pre.filter (fun p => !p.2.isStatic)).map Prod.snd) l z = false := by
        intro z hz hzl
        obtain ⟨q, hqR, hqcol, hdich⟩ := P2 j l hmemJL hns z hz hzl
        rw [freeAtV_false_iff]
        cases hqstat : q.isStatic
        · have hqy : q.y < l.y := by
            rcases hdich with hqs | hqy
            · rw [hqs] at hqstat
              cases hqstat
            · exact hqy
          obtain ⟨jq, hjq, hRjq⟩ := List.mem_iff_getElem.mp hqR
          have hjqmem : (jq, q) ∈ R.enum := by
            rw [List.mem_enum_iff_getElem?]
            show R[jq]? = some q
            rw [List.getElem?_eq_getElem hjq, hRjq]
          have hjqsorted : (jq, q) ∈ pre ++ (j, l) :: rest := by
            rw [← hs]
            exact hperm.mem_iff.mpr hjqmem
          rcases List.mem_append.mp hjqsorted with hqpre | hqtail
          · refine ⟨q, List.mem_append_right _ ?_, hqcol⟩
            refine List.mem_map.mpr ⟨(jq, q), List.mem_filter.mpr ⟨hqpre, ?_⟩, rfl⟩
            rw [Bool.not_eq_true']
            exact hqstat
          · rcases List.mem_cons.mp hqtail with heq | hqrest
            · injection heq with he1 he2
              rw [he2] at hqy
              omega
            · have hsort2 := hsort
              rw [hs] at hsort2
              have hp2 := (List.pairwise_append.mp hsort2).2.1
              have hrel := (List.pairwise_cons.mp hp2).1 (jq, q) hqrest
              have hle : l.y ≤ q.y := leIdxV_y_le hrel
              omega
        · refine ⟨q, List.mem_append_left _ ?_, hqcol⟩
          exact List.mem_filter.mpr ⟨hqR, hqstat⟩
      have hmin : minFreeV (R.filter (fun q => q.isStatic) ++
          (pre.filter (fun p => !p.2.isStatic)).map Prod.snd) l = l.y :=
        minFreeV_eq _ _ _ (P3 l hlR hns) hfree hblocked
      have hplace : placeStep CompactType.vertical
          (R.filter (fun q => q.isStatic) ++
            (pre.filter (fun p => !p.2.isStatic)).map Prod.snd) l = l := by
        unfold placeStep
        rw [hmin]
        exact setY_self l
      have hrw : runCompact CompactType.vertical (R.filter (fun q => q.isStatic))
          ((j, l) :: rest) ((pre.filter (fun p => !p.2.isStatic)).map Prod.snd) =
          (j, l) :: runCompact CompactType.vertical (R.filter (fun q => q.isStatic))
            rest (((pre.filter (fun p => !p.2.isStatic)).map Prod.snd) ++ [l]) := by
        simp only [runCompact, hns, Bool.false_eq_true, if_false, hplace]
      rw [hrw]
      congr 1
      have hrec := ih (pre ++ [(j, l)]) (by rw [hs, List.append_assoc]; rfl)
      rw [nsVals_append_nonstatic pre j l hns] at hrec
      exact hrec

theorem snd_mem_of_mem_enum {L : Layout} {p : Nat × LayoutItem} (h : p ∈ L.enum) :
    p.2 ∈ L := by
  obtain ⟨j, u⟩ := p
  have h0 : L[j]? = some u := List.mem_enum_iff_getElem?.mp h
  obtain ⟨hlt, he⟩ := List.getElem?_eq_some.mp h0
  exact List.mem_iff_getElem.mpr ⟨j, hlt, he⟩

theorem exists_enum_of_mem {L : Layout} {u : LayoutItem} (h : u ∈ L) :
    ∃ j, (j, u) ∈ L.enum := by
  obtain ⟨j, hj, he⟩ := List.mem_iff_getElem.mp h
  refine ⟨j, ?_⟩
  rw [List.mem_enum_iff_getElem?]
  show L[j]? = some u
  rw [List.getElem?_eq_getElem hj, he]

theorem map_id_of {α : Type} (f : α → α) :
    ∀ (l : List α), (∀ a ∈ l, f a = a) → l.map f = l := by
  intro l
  induction l with
  | nil => intro _; rfl
  | cons a as ih =>
    intro hall
    rw [List.map_cons, hall a (List.mem_cons_self _ _),
      ih (fun b hb => hall b (List.mem_cons_of_mem _ hb))]

theorem compact_vertical_eq (L : Layout) (cols : Int) :
    compact L CompactType.vertical cols =
      (restoreOrder L (runCompact CompactType.vertical (L.filter (fun l => l.isStatic))
        (List.insertionSort sortRelV L.enum) [])).map (correctItemBound cols) := rfl

/-- C3 (amended).  Vertical compaction is idempotent on layouts whose items
all have height at least `1` and fit horizontally (`x + w ≤ cols`): running
`compact` a second time changes nothing.  (Outside these conditions, and
for horizontal compaction, the closing `x + w ≤ cols` clamp can push an
item into an overlap that the next pass resolves differently — see the
counterexample.) -/
theorem compact_vertical_idempotent (L : Layout) (cols : Int)
    (hb : ∀ lI ∈ L, 1 ≤ lI.h ∧ lI.x + lI.w ≤ cols) :
    compact (compact L CompactType.vertical cols) CompactType.vertical cols =
      compact L CompactType.vertical cols := by
  set statics := L.filter (fun l => l.isStatic) with hstatics
  set sorted := List.insertionSort sortRelV L.enum with hsorted_def
  set placed := runCompact CompactType.vertical statics sorted [] with hplaced_def
  set R₀ := restoreOrder L placed with hR0
  have hst : ∀ q ∈ statics, q.isStatic = true := fun q hq => (List.mem_filter.mp hq).2
  have hperm1 : sorted.Perm L.enum := List.perm_insertionSort _ _
  have hts : ∀ p ∈ sorted, p.2.isStatic = true → p.2 ∈ statics := by
    intro p hp hps
    exact List.mem_filter.mpr ⟨snd_mem_of_mem_enum (hperm1.mem_iff.mp hp), hps⟩
  have hth : ∀ p ∈ sorted, 1 ≤ p.2.h := by
    intro p hp
    exact (hb p.2 (snd_mem_of_mem_enum (hperm1.mem_iff.mp hp))).1
  obtain ⟨invA, invB, invC, invE, invF⟩ :=
    runV_inv statics hst sorted [] hts hth (by intro q hq; cases hq)
  have hfst : placed.map Prod.fst = sorted.map Prod.fst := runV_fst _ _ _ _
  have hfstperm : (placed.map Prod.fst).Perm (List.range L.length) := by
    rw [hfst]
    have hmp := hperm1.map Prod.fst
    rw [List.enum_map_fst] at hmp
    exact hmp
  have hnd : (placed.map Prod.fst).Nodup := hfstperm.nodup_iff.mpr (List.nodup_range _)
  have hcov : ∀ j, j < L.length → ∃ u, (j, u) ∈ placed := by
    intro j hj
    have hjr : j ∈ placed.map Prod.fst := hfstperm.mem_iff.mpr (List.mem_range.mpr hj)
    obtain ⟨p, hp, hpj⟩ := List.mem_map.mp hjr
    refine ⟨p.2, ?_⟩
    have hpe : (p.1, p.2) ∈ placed := hp
    rw [← hpj]
    exact hpe
  have hidx : ∀ p ∈ placed, p.1 < L.length := by
    intro p hp
    have h1 : p.1 ∈ placed.map Prod.fst := List.mem_map_of_mem _ hp
    exact List.mem_range.mp (hfstperm.mem_iff.mp h1)
  have hmemR : ∀ {j : Nat} {u : LayoutItem}, ((j, u) ∈ R₀.enum ↔ (j, u) ∈ placed) :=
    restore_enum_mem L placed hnd hcov hidx
  have hfields : ∀ p ∈ placed, ∃ u₀, (p.1, u₀) ∈ L.enum ∧ p.2.x = u₀.x ∧
      p.2.w = u₀.w ∧ p.2.h = u₀.h ∧ p.2.isStatic = u₀.isStatic := by
    intro p hp
    obtain ⟨q, hq, hjq, hx, hw, hh, _, hstq, _⟩ := invE p hp
    have hqe : q ∈ L.enum := hperm1.mem_iff.mp hq
    refine ⟨q.2, ?_, hx, hw, hh, hstq⟩
    rw [hjq]
    exact hqe
  have hinb : ∀ u ∈ R₀, u.x + u.w ≤ cols ∧ 1 ≤ u.h := by
    intro u hu
    obtain ⟨j, hju⟩ := exists_enum_of_mem hu
    obtain ⟨u₀, hu₀e, hx, hw, hh, _⟩ := hfields (j, u) (hmemR.mp hju)
    have hx' : u.x = u₀.x := hx
    have hw' : u.w = u₀.w := hw
    have hh' : u.h = u₀.h := hh
    have hbu := hb u₀ (snd_mem_of_mem_enum hu₀e)
    omega
  have hclamp : R₀.map (correctItemBound cols) = R₀ := by
    apply map_id_of
    intro u hu
    unfold correctItemBound
    rw [if_pos (hinb u hu).1]
  have hR : compact L CompactType.vertical cols = R₀ := by
    rw [compact_vertical_eq L cols, ← hstatics, ← hsorted_def, ← hplaced_def, ← hR0]
    exact hclamp
  have hsymm : Symmetric (fun p q : Nat × LayoutItem =>
      ¬(p.2.isStatic = true ∧ q.2.isStatic = true) → collides p.2 q.2 = false) := by
    intro p q hpq hn
    rw [collides_symm]
    exact hpq (fun hc => hn ⟨hc.2, hc.1⟩)
  have P1 : ∀ (ju : Nat) (u : LayoutItem) (jv : Nat) (v : LayoutItem),
      (ju, u) ∈ R₀.enum → (jv, v) ∈ R₀.enum → ju ≠ jv → u.isStatic = false →
      collides u v = false := by
    intro ju u jv v hu hv hne huns
    have hu' : (ju, u) ∈ placed := hmemR.mp hu
    have hv' : (jv, v) ∈ placed := hmemR.mp hv
    have hnepair : ((ju, u) : Nat × LayoutItem) ≠ (jv, v) := by
      intro he
      injection he with h1 _
      exact hne h1
    have hP := invB.forall hsymm hu' hv' hnepair
    refine hP ?_
    intro hc
    have hc1 : u.isStatic = true := hc.1
    rw [huns] at hc1
    cases hc1
  have P2 : ∀ (j : Nat) (lI : LayoutItem), (j, lI) ∈ R₀.enum → lI.isStatic = false →
      ∀ z, 0 ≤ z → z < lI.y →
      ∃ q ∈ R₀, collides (setY lI z) q = true ∧ (q.isStatic = true ∨ q.y < lI.y) := by
    intro j lI hjl hlns z hz hzlt
    obtain ⟨q, hqloc, hqcol, hqdich⟩ := invC (j, lI) (hmemR.mp hjl) hlns z hz hzlt
    refine ⟨q, ?_, hqcol, hqdich⟩
    rcases hqloc with h | h | ⟨r, hr, _, rfl⟩
    · have hqf := List.mem_filter.mp h
      obtain ⟨jq, hjqe⟩ := exists_enum_of_mem hqf.1
      have hjs : (jq, q) ∈ sorted := hperm1.mem_iff.mpr hjqe
      have hjp : (jq, q) ∈ placed := invF (jq, q) hjs hqf.2
      exact snd_mem_of_mem_enum (hmemR.mpr hjp)
    · cases h
    · obtain ⟨jr, ur⟩ := r
      exact snd_mem_of_mem_enum (hmemR.mpr hr)
  have P3 : ∀ lI ∈ R₀, lI.isStatic = false → 0 ≤ lI.y := by
    intro lI h hns
    obtain ⟨j, hj⟩ := exists_enum_of_mem h
    exact (invA (j, lI) (hmemR.mp hj) hns).1
  have hfix := pass2_fixpoint R₀ P1 P2 P3 (List.insertionSort sortRelV R₀.enum) [] rfl
  simp only [List.filter_nil, List.map_nil] at hfix
  have hperm2 : (List.insertionSort sortRelV R₀.enum).Perm R₀.enum :=
    List.perm_insertionSort _ _
  have hnd₂ : ((List.insertionSort sortRelV R₀.enum).map Prod.fst).Nodup := by
    have h1 := (hperm2.map Prod.fst).nodup_iff
    rw [List.enum_map_fst] at h1
    exact h1.mpr (List.nodup_range _)
  have hrestore₂ : restoreOrder R₀ (List.insertionSort sortRelV R₀.enum) = R₀ := by
    apply List.ext_getElem?
    intro n
    by_cases hn : n < R₀.length
    · have hmem : (n, R₀[n]) ∈ R₀.enum := by
        rw [List.mem_enum_iff_getElem?]
        show R₀[n]? = some R₀[n]
        rw [List.getElem?_eq_getElem hn]
      have hmems : (n, R₀[n]) ∈ List.insertionSort sortRelV R₀.enum :=
        hperm2.mem_iff.mpr hmem
      rw [restoreOrder_getElem? R₀ _ hnd₂ hmems hn, List.getElem?_eq_getElem hn]
    · rw [List.getElem?_eq_none (by rw [restoreOrder_length]; omega),
        List.getElem?_eq_none (by omega)]
  rw [hR, compact_vertical_eq R₀ cols, hfix, hrestore₂]
  apply map_id_of
  intro u hu
  unfold correctItemBound
  rw [if_pos (hinb u hu).1]

/-- C3, counterexample to the original claim.  Compaction is NOT idempotent
in general: a second `compact` pass can move items again, both for vertical
compaction (here with an out-of-bounds item that the closing clamp pushes
into an overlap) and for horizontal compaction (here even though every item
satisfies `1 ≤ h` and `x + w ≤ cols`). -/
theorem compact_not_idempotent :
    (compact (compact layoutCtrV CompactType.vertical 1) CompactType.vertical 1 ≠
      compact layoutCtrV CompactType.vertical 1) ∧
    ((∀ lI ∈ layoutCtrH, 1 ≤ lI.h ∧ lI.x + lI.w ≤ 10) ∧
     compact (compact layoutCtrH CompactType.horizontal 10) CompactType.horizontal 10 ≠
      compact layoutCtrH CompactType.horizontal 10) := by
  decide

/-- Witness for `compact_vertical_idempotent` at a concrete in-bounds layout. -/
theorem compact_vertical_idempotent_witness :
    (∀ lI ∈ layoutIdemW, 1 ≤ lI.h ∧ lI.x + lI.w ≤ 2) ∧
    compact (compact layoutIdemW CompactType.vertical 2) CompactType.vertical 2 =
      compact layoutIdemW CompactType.vertical 2 :=
  ⟨by decide, compact_vertical_idempotent layoutIdemW 2 (by decide)⟩
